import Mathlib

/-!
Shallow embedding of the core retrieval subsystem of the `react-native-rag`
repository: the vector math helpers (`src/utils/vectorMath.ts`), the identifier
generator (`src/utils/uuidv4.ts`), the in-memory vector store
(`src/vector_stores/memoryVectorStore.ts`, batch API) and the RAG orchestrator
(`src/rag/rag.ts`).

Modelling conventions:
- JavaScript numbers are modelled as rationals; the floating-point
  square root used by `magnitude` is an abstract parameter `msqrt`.
- Fallible code returns `Except String` carrying the thrown error message.
- The JavaScript `Map` held by the store is modelled as an insertion-ordered
  list of records; `Map.set` replaces in place or appends.
- The Embedding Provider (external collaborator) is an abstract function
  `embed : String → Except String (List ℚ)`; the identifier generator used for
  omitted ids is an abstract function `gen : Nat → String`.
- Stateful methods return a pair of the call result and the state after the
  call, so that partial mutation on failure is observable.
-/

namespace RNRag

/-- A metadata object (a JavaScript record), modelled as a key-value list. -/
abbrev Meta := List (String × Int)

/-- `GetResult` from `src/types/common.ts`: one stored record. -/
structure GetResult where
  id : String
  document : String
  embedding : List ℚ
  metadata : Option Meta
deriving DecidableEq, Repr

/-- `QueryResult` from `src/types/common.ts`: a record plus a similarity score. -/
structure QueryResult extends GetResult where
  similarity : ℚ
deriving DecidableEq, Repr

/-- `dotProduct` from `src/utils/vectorMath.ts`: sum of pairwise products;
throws when the lengths differ. -/
def dotProduct (a b : List ℚ) : Except String ℚ :=
  if a.length = b.length then
    .ok ((a.zip b).foldl (fun sum p => sum + p.1 * p.2) 0)
  else
    .error "Vectors must be of the same length"

/-- The sum of squares of the entries of `a` (the argument of `Math.sqrt`
inside `magnitude`). -/
def sumSquares (a : List ℚ) : ℚ :=
  a.foldl (fun sum ai => sum + ai * ai) 0

/-- `magnitude` from `src/utils/vectorMath.ts`; `msqrt` abstracts `Math.sqrt`. -/
def magnitude (msqrt : ℚ → ℚ) (a : List ℚ) : ℚ :=
  msqrt (sumSquares a)

/-- `cosine` from `src/utils/vectorMath.ts`:
`dotProduct(a,b) / (magnitude(a) * magnitude(b))`. -/
def cosine (msqrt : ℚ → ℚ) (a b : List ℚ) : Except String ℚ :=
  (dotProduct a b).map (fun d => d / (magnitude msqrt a * magnitude msqrt b))

/-- The mutable state of a `MemoryVectorStore`: the `rows` map (insertion
ordered) and the lazily established embedding dimension `dim`. -/
structure MemState where
  rows : List GetResult
  dim : Option Nat
deriving DecidableEq, Repr

/-- `Map.has`: does a record with this id exist? -/
def rowsHas (rows : List GetResult) (id : String) : Bool :=
  rows.any (fun r => r.id == id)

/-- `Map.get`: the record with this id, if any. -/
def rowsGet (rows : List GetResult) (id : String) : Option GetResult :=
  rows.find? (fun r => r.id == id)

/-- `Map.set`: replace the record with this id in place, or append it. -/
def rowsSet (rows : List GetResult) (g : GetResult) : List GetResult :=
  if rowsHas rows g.id then
    rows.map (fun r => if r.id == g.id then g else r)
  else
    rows ++ [g]

/-- `Map.delete`: remove the record with this id. -/
def rowsDelete (rows : List GetResult) (id : String) : List GetResult :=
  rows.filter (fun r => r.id ≠ id)

/-- `MemoryVectorStore.assertAndSetDim`: rejects empty vectors, establishes the
dimension on first use, and rejects mismatched lengths afterwards. Returns the
new value of the `dim` field. -/
def assertAndSetDim (dim : Option Nat) (vec : List ℚ) : Except String (Option Nat) :=
  if vec.length = 0 then
    .error "embedding must be a non-empty vector"
  else
    match dim with
    | none => .ok (some vec.length)
    | some d =>
      if vec.length = d then .ok (some d)
      else
        let n := vec.length
        .error s!"embedding dimension {n} does not match collection dimension {d}"

/-- The `for (const emb of embeddings) this.assertAndSetDim(emb)` loop: checks
the vectors in order, threading the `dim` field; on failure the `dim` value
reached so far is kept (the JavaScript field was already mutated). -/
def assertDims (dim : Option Nat) : List (List ℚ) → Except String Unit × Option Nat
  | [] => (.ok (), dim)
  | e :: es =>
    match assertAndSetDim dim e with
    | .ok dim2 => assertDims dim2 es
    | .error msg => (.error msg, dim)

/-- `MemoryVectorStore.assertLengthMatchIds`: optional arrays must match the
ids length. -/
def assertLengthMatchIds {α : Type} (arr : Option (List α)) (idsLength : Nat) :
    Except String Unit :=
  match arr with
  | some l =>
    if l.length = idsLength then .ok ()
    else .error "array length must match ids length"
  | none => .ok ()

/-- Parameters of `MemoryVectorStore.add`. -/
structure AddParams where
  ids : Option (List String)
  documents : List String
  embeddings : Option (List (List ℚ))
  metadatas : Option (List Meta)

/-- The default record produced by a (checked, hence unreachable) failed
`Map.get`; mirrors the non-null assertion in the source. -/
def defaultRow (id : String) : GetResult :=
  { id := id, document := "", embedding := [], metadata := none }

/-- The mutation loop of `MemoryVectorStore.add`: for each index, the embedding
is the caller-supplied one when `embeddings` is present, and otherwise the
Embedding Provider output for the document text (which may fail, leaving the
rows written so far in place). `i` is the running index into the optional
arrays. -/
def addEmbedding (embed : String → Except String (List ℚ))
    (embs : Option (List (List ℚ))) (i : Nat) (doc : String) :
    Except String (List ℚ) :=
  match embs with
  | some es => .ok (es.getD i [])
  | none => embed doc

def addLoop (embed : String → Except String (List ℚ))
    (embs : Option (List (List ℚ))) (metas : Option (List Meta)) :
    List (String × String) → Nat → List GetResult →
      Except String Unit × List GetResult
  | [], _, rows => (.ok (), rows)
  | (id, doc) :: rest, i, rows =>
    match addEmbedding embed embs i doc with
    | .error e => (.error e, rows)
    | .ok emb =>
      addLoop embed embs metas rest (i + 1)
        (rowsSet rows
          { id := id, document := doc, embedding := emb,
            metadata := (metas.map (fun ms => ms.getD i [])) })

/-- The ids actually used by `MemoryVectorStore.add`:
`params.ids ?? documents.map(() => uuidv4())`. -/
def addIds (gen : Nat → String) (p : AddParams) : List String :=
  p.ids.getD ((List.range p.documents.length).map gen)

/-- The validation stage of `MemoryVectorStore.add`, in source order: the three
array-length checks, then the duplicate-id scan. -/
def addChecks (st : MemState) (p : AddParams) (ids : List String) :
    Except String Unit :=
  match assertLengthMatchIds p.embeddings ids.length with
  | .error e => .error e
  | .ok _ =>
    match assertLengthMatchIds (some p.documents) ids.length with
    | .error e => .error e
    | .ok _ =>
      match assertLengthMatchIds p.metadatas ids.length with
      | .error e => .error e
      | .ok _ =>
        match ids.find? (fun id => rowsHas st.rows id) with
        | some id => .error ("id already exists: " ++ id)
        | none => .ok ()

/-- The dimension-validation stage shared by `add` and `update`: caller-supplied
embeddings are checked (threading `dim`); omitted embeddings are not. -/
def dimStage (dim : Option Nat) (embs : Option (List (List ℚ))) :
    Except String Unit × Option Nat :=
  match embs with
  | some es => assertDims dim es
  | none => (.ok (), dim)

/-- `MemoryVectorStore.add` (batch): validates array lengths, rejects ids that
already exist, validates caller-supplied embedding dimensions, then inserts the
records one by one (embedding via the provider when omitted). -/
def MemoryVectorStore.add (embed : String → Except String (List ℚ))
    (gen : Nat → String) (st : MemState) (p : AddParams) :
    Except String (List String) × MemState :=
  match addChecks st p (addIds gen p) with
  | .error e => (.error e, st)
  | .ok _ =>
    match dimStage st.dim p.embeddings with
    | (.error e, dim2) => (.error e, { st with dim := dim2 })
    | (.ok _, dim2) =>
      match addLoop embed p.embeddings p.metadatas
          ((addIds gen p).zip p.documents) 0 st.rows with
      | (.ok _, rows2) => (.ok (addIds gen p), { rows := rows2, dim := dim2 })
      | (.error e, rows2) => (.error e, { rows := rows2, dim := dim2 })

/-- Parameters of `MemoryVectorStore.update`. -/
structure UpdateParams where
  ids : List String
  embeddings : Option (List (List ℚ))
  documents : Option (List String)
  metadatas : Option (List Meta)

/-- The mutation loop of `MemoryVectorStore.update`: per id, a supplied
embedding wins; otherwise a supplied document is re-embedded via the provider
(which may fail, leaving the rows written so far in place); otherwise the old
embedding is kept. Absent documents/metadatas keep the old field; a supplied
metadata replaces the old one. -/
def updateEmbedding (embed : String → Except String (List ℚ))
    (docs : Option (List String)) (embs : Option (List (List ℚ))) (i : Nat)
    (oldEmbedding : List ℚ) : Except String (List ℚ) :=
  match embs with
  | some es => .ok (es.getD i [])
  | none =>
    match docs with
    | some ds => embed (ds.getD i "")
    | none => .ok oldEmbedding

/-- The record written by one iteration of the update loop: a supplied
document at index `i` replaces the text, a supplied metadata object replaces
the metadata, absent arrays keep the fields of `old`; `emb` is the already
resolved new embedding. -/
def newUpdateRow (docs : Option (List String)) (metas : Option (List Meta))
    (i : Nat) (id : String) (old : GetResult) (emb : List ℚ) : GetResult :=
  { id := id,
    document := match docs with
                | some ds => ds.getD i ""
                | none => old.document,
    embedding := emb,
    metadata := match metas with
                | some ms => some (ms.getD i [])
                | none => old.metadata }

def updateLoop (embed : String → Except String (List ℚ))
    (docs : Option (List String)) (embs : Option (List (List ℚ)))
    (metas : Option (List Meta)) :
    List String → Nat → List GetResult → Except String Unit × List GetResult
  | [], _, rows => (.ok (), rows)
  | id :: rest, i, rows =>
    match updateEmbedding embed docs embs i
        ((rowsGet rows id).getD (defaultRow id)).embedding with
    | .error e => (.error e, rows)
    | .ok emb =>
      updateLoop embed docs embs metas rest (i + 1)
        (rowsSet rows
          (newUpdateRow docs metas i id ((rowsGet rows id).getD (defaultRow id)) emb))

/-- The validation stage of `MemoryVectorStore.update`, in source order: the
three array-length checks, then the all-ids-exist scan. -/
def updateChecks (st : MemState) (p : UpdateParams) : Except String Unit :=
  match assertLengthMatchIds p.embeddings p.ids.length with
  | .error e => .error e
  | .ok _ =>
    match assertLengthMatchIds p.documents p.ids.length with
    | .error e => .error e
    | .ok _ =>
      match assertLengthMatchIds p.metadatas p.ids.length with
      | .error e => .error e
      | .ok _ =>
        match p.ids.find? (fun id => !(rowsHas st.rows id)) with
        | some id => .error ("id not found: " ++ id)
        | none => .ok ()

/-- `MemoryVectorStore.update` (batch): validates array lengths, requires every
id to exist, validates caller-supplied embedding dimensions, then rewrites the
records one by one. -/
def MemoryVectorStore.update (embed : String → Except String (List ℚ))
    (st : MemState) (p : UpdateParams) : Except String Unit × MemState :=
  match updateChecks st p with
  | .error e => (.error e, st)
  | .ok _ =>
    match dimStage st.dim p.embeddings with
    | (.error e, dim2) => (.error e, { st with dim := dim2 })
    | (.ok _, dim2) =>
      match updateLoop embed p.documents p.embeddings p.metadatas p.ids 0 st.rows with
      | (.ok _, rows2) => (.ok (), { rows := rows2, dim := dim2 })
      | (.error e, rows2) => (.error e, { rows := rows2, dim := dim2 })

/-- Parameters of `MemoryVectorStore.delete`. -/
structure DeleteParams where
  ids : Option (List String)
  predicate : Option (GetResult → Bool)

/-- `MemoryVectorStore.delete`: with ids and a predicate, all ids must exist
and the matching ones are removed; with ids only, all must exist and all are
removed; with a predicate only, matching records are removed; with neither,
nothing happens. -/
def MemoryVectorStore.delete (st : MemState) (p : DeleteParams) :
    Except String Unit × MemState :=
  match p.ids, p.predicate with
  | some ids, some pred =>
    match ids.find? (fun id => !(rowsHas st.rows id)) with
    | some id => (.error ("id not found: " ++ id), st)
    | none =>
      let rows2 := ids.foldl
        (fun rows id =>
          match rowsGet rows id with
          | some row => if pred row then rowsDelete rows id else rows
          | none => rows)
        st.rows
      (.ok (), { st with rows := rows2 })
  | some ids, none =>
    match ids.find? (fun id => !(rowsHas st.rows id)) with
    | some id => (.error ("id not found: " ++ id), st)
    | none =>
      (.ok (), { st with rows := ids.foldl rowsDelete st.rows })
  | none, some pred =>
    (.ok (), { st with rows := st.rows.filter (fun r => !(pred r)) })
  | none, none => (.ok (), st)

/-- Parameters of `MemoryVectorStore.query`. -/
structure QueryParams where
  queryTexts : Option (List String)
  queryEmbeddings : Option (List (List ℚ))
  nResults : Option Nat
  ids : Option (List String)
  predicate : Option (QueryResult → Bool)

/-- `.slice(0, nResults)`: the whole list when `nResults` is absent. -/
def sliceTo {α : Type} (nResults : Option Nat) (l : List α) : List α :=
  match nResults with
  | some n => l.take n
  | none => l

/-- Scores one candidate record against a query vector, as in
`{ ...r, similarity: cosine(q, r.embedding) }`. -/
def scoreOne (msqrt : ℚ → ℚ) (q : List ℚ) (r : GetResult) :
    Except String QueryResult :=
  (cosine msqrt q r.embedding).map (fun s => { toGetResult := r, similarity := s })

/-- Descending-similarity ordering used by `.sort((a, b) => b.similarity - a.similarity)`. -/
def simGE (a b : QueryResult) : Prop := b.similarity ≤ a.similarity

instance : DecidableRel simGE := fun a b => inferInstanceAs (Decidable (b.similarity ≤ a.similarity))

instance : IsTotal QueryResult simGE := ⟨fun a b => le_total b.similarity a.similarity⟩

instance : IsTrans QueryResult simGE := ⟨fun _ _ _ h1 h2 => le_trans h2 h1⟩

/-- The candidate pool: the id-restricted records when a non-empty `ids` list
was given, otherwise every record in insertion order. -/
def queryPool (st : MemState) (p : QueryParams) : List GetResult :=
  match p.ids with
  | some ids => if ids.length ≠ 0 then ids.filterMap (rowsGet st.rows) else st.rows
  | none => st.rows

/-- The query vectors: caller-supplied embeddings are dimension-checked in
order (threading `dim`); query texts are embedded by the provider. -/
def buildQueries (embed : String → Except String (List ℚ)) (dim : Option Nat)
    (p : QueryParams) : Except String (List (List ℚ)) × Option Nat :=
  match p.queryEmbeddings with
  | some qs =>
    match assertDims dim qs with
    | (.ok _, dim2) => (.ok qs, dim2)
    | (.error e, dim2) => (.error e, dim2)
  | none =>
    match p.queryTexts with
    | some ts => (ts.mapM embed, dim)
    | none => (.ok [], dim)

/-- Per query vector: score the pool, filter by the predicate, sort by
descending similarity (stably), truncate to `nResults`. -/
def scorePool (msqrt : ℚ → ℚ) (pred : QueryResult → Bool) (nResults : Option Nat)
    (pool : List GetResult) (q : List ℚ) : Except String (List QueryResult) :=
  (pool.mapM (scoreOne msqrt q)).map
    (fun scored => sliceTo nResults ((scored.filter pred).insertionSort simGE))

/-- `MemoryVectorStore.query` (batch): rejects unless exactly one of
`queryTexts` / `queryEmbeddings` is present, requires every restricted id to
exist, builds the query vectors, then returns one ranked list per query. -/
def MemoryVectorStore.query (msqrt : ℚ → ℚ)
    (embed : String → Except String (List ℚ)) (st : MemState) (p : QueryParams) :
    Except String (List (List QueryResult)) × MemState :=
  if p.queryTexts.isNone = p.queryEmbeddings.isNone then
    (.error "Exactly one of queryTexts or queryEmbeddings must be provided", st)
  else
    match (p.ids.getD []).find? (fun id => !(rowsHas st.rows id)) with
    | some id => (.error ("id not found: " ++ id), st)
    | none =>
      match buildQueries embed st.dim p with
      | (.error e, dim2) => (.error e, { st with dim := dim2 })
      | (.ok queries, dim2) =>
        match queries.mapM
            (scorePool msqrt (p.predicate.getD (fun _ => true)) p.nResults
              (queryPool st p)) with
        | .error e => (.error e, { st with dim := dim2 })
        | .ok results => (.ok results, { st with dim := dim2 })

/-- The role of a chat message (`src/types/common.ts`). -/
inductive Role
  | user
  | assistant
  | system
deriving DecidableEq, Repr

/-- A chat message (`src/types/common.ts`). -/
structure Message where
  role : Role
  content : String
deriving DecidableEq, Repr

/-- `RAG.splitAddDocument` (`src/rag/rag.ts`), composed with the in-memory
store: splits the document (the splitter is an abstract collaborator), one
generated id per chunk, optional per-chunk metadata whose cardinality must
match the chunk count, then a single batch `add`. -/
def shapeMismatchMsg (expected got : Nat) : String :=
  s!"metadataGenerator must return metadata for all chunks: expected {expected}, got {got}"

def RAG.splitAddDocument (embed : String → Except String (List ℚ))
    (gen : Nat → String) (splitText : String → Except String (List String))
    (st : MemState) (document : String)
    (metadataGenerator : Option (List String → List Meta)) :
    Except String (List String) × MemState :=
  match splitText document with
  | .error e => (.error e, st)
  | .ok chunks =>
    match metadataGenerator.map (fun g => g chunks) with
    | some ms =>
      if ms.length = chunks.length then
        MemoryVectorStore.add embed gen st
          { ids := some ((List.range chunks.length).map gen),
            documents := chunks, embeddings := none, metadatas := some ms }
      else
        (.error (shapeMismatchMsg chunks.length ms.length), st)
    | none =>
      MemoryVectorStore.add embed gen st
        { ids := some ((List.range chunks.length).map gen),
          documents := chunks, embeddings := none, metadatas := none }

/-- The private default `questionGenerator` of `RAG`: the content of the last
message, or the empty string. -/
def defaultQuestionGenerator (messages : List Message) : String :=
  match messages.getLast? with
  | some m => m.content
  | none => ""

/-- The private default `promptGenerator` of `RAG`: a fixed template embedding
the last message and the newline-joined retrieved document texts. -/
def defaultPromptGenerator (messages : List Message)
    (retrievedDocs : List QueryResult) : String :=
  let lastContent :=
    match messages.getLast? with
    | some m => m.content
    | none => ""
  "Message: " ++ lastContent ++ "\nContext: " ++
    String.intercalate "\n" (retrievedDocs.map (fun r => r.document))

/-- The `input` argument of `RAG.generate`: a bare string or a message list. -/
inductive GenInput
  | str (s : String)
  | msgs (l : List Message)

/-- Parameters of `RAG.generate`; absent optional parameters take the
destructuring defaults of the source. -/
structure GenerateParams where
  input : GenInput
  augmentedGeneration : Option Bool
  nResults : Option Nat
  predicate : Option (QueryResult → Bool)
  questionGenerator : Option (List Message → String)
  promptGenerator : Option (List Message → List QueryResult → String)

/-- The observable outcome of one `RAG.generate` call: the returned text (or
error), the vector-store query invocations, the message lists handed to the
Generative Model, and the store state after the call. -/
structure GenResult where
  result : Except String String
  queryCalls : List QueryParams
  llmCalls : List (List Message)
  finalStore : MemState

/-- The input normalization of `RAG.generate`: a bare string becomes a single
user-role message. -/
def normalizeInput : GenInput → List Message
  | .str s => [{ role := .user, content := s }]
  | .msgs l => l

/-- `lastMessage?.content || the empty string`. -/
def lastMessageContent (messages : List Message) : String :=
  match messages.getLast? with
  | some m => m.content
  | none => ""

/-- The parameters of the single vector-store query issued by an augmented
`RAG.generate` call: one query text derived by the question generator, the
resolved `nResults` (default 3) and predicate, no embeddings, no id
restriction. -/
def genQueryParams (p : GenerateParams) : QueryParams :=
  { queryTexts := some [(p.questionGenerator.getD defaultQuestionGenerator)
      (normalizeInput p.input)],
    queryEmbeddings := none, nResults := some (p.nResults.getD 3), ids := none,
    predicate := some (p.predicate.getD (fun _ => true)) }

/-- The message list handed to the Generative Model by an augmented call: the
normalized input followed by one trailing user-role message holding the
generated prompt. -/
def augmentedInput (p : GenerateParams) (retrievedDocs : List QueryResult) :
    List Message :=
  normalizeInput p.input ++
    [{ role := .user,
       content := (p.promptGenerator.getD defaultPromptGenerator)
         (normalizeInput p.input) retrievedDocs }]

/-- `RAG.generate` (`src/rag/rag.ts`), composed with the in-memory store. The
Generative Model is the abstract function `llm`. Token streaming is not
modelled; `llm` returns the final aggregated text. -/
def RAG.generate (msqrt : ℚ → ℚ) (embed : String → Except String (List ℚ))
    (llm : List Message → Except String String) (st : MemState)
    (p : GenerateParams) : GenResult :=
  if (normalizeInput p.input).length = 0 then
    { result := .error "No messages provided", queryCalls := [], llmCalls := [],
      finalStore := st }
  else if p.augmentedGeneration.getD true = false then
    { result := llm (normalizeInput p.input), queryCalls := [],
      llmCalls := [normalizeInput p.input], finalStore := st }
  else if lastMessageContent (normalizeInput p.input) = "" then
    { result := .error "Last message has no content", queryCalls := [],
      llmCalls := [], finalStore := st }
  else
    match MemoryVectorStore.query msqrt embed st (genQueryParams p) with
    | (.error e, st2) =>
      { result := .error e, queryCalls := [genQueryParams p], llmCalls := [],
        finalStore := st2 }
    | (.ok retrievedDocs, st2) =>
      { result := llm (augmentedInput p (retrievedDocs.getD 0 [])),
        queryCalls := [genQueryParams p],
        llmCalls := [augmentedInput p (retrievedDocs.getD 0 [])],
        finalStore := st2 }

/-- One entry of the `byteToHex` lookup table of `src/utils/uuidv4.ts`: the
two lowercase hex digits of a byte. -/
def hexChar (n : Nat) : Char :=
  if n < 10 then Char.ofNat (48 + n) else Char.ofNat (87 + n)

/-- `byteToHex[b]`: `(b + 0x100).toString(16).slice(1)`. -/
def byteToHex (b : Nat) : String :=
  String.mk [hexChar (b / 16), hexChar (b % 16)]

/-- `uuidv4` from `src/utils/uuidv4.ts`, applied to the 16 random bytes `buf`
drawn by `rng`: forces the version nibble of byte 6 to 4 and the variant bits
of byte 8 to the RFC range, then formats 8-4-4-4-12 hex groups. -/
def uuidv4 (buf : List Nat) : String :=
  let b6 := ((buf.getD 6 0) &&& 0x0f) ||| 0x40
  let b8 := ((buf.getD 8 0) &&& 0x3f) ||| 0x80
  byteToHex (buf.getD 0 0) ++ byteToHex (buf.getD 1 0) ++
    byteToHex (buf.getD 2 0) ++ byteToHex (buf.getD 3 0) ++ "-" ++
    byteToHex (buf.getD 4 0) ++ byteToHex (buf.getD 5 0) ++ "-" ++
    byteToHex b6 ++ byteToHex (buf.getD 7 0) ++ "-" ++
    byteToHex b8 ++ byteToHex (buf.getD 9 0) ++ "-" ++
    byteToHex (buf.getD 10 0) ++ byteToHex (buf.getD 11 0) ++
    byteToHex (buf.getD 12 0) ++ byteToHex (buf.getD 13 0) ++
    byteToHex (buf.getD 14 0) ++ byteToHex (buf.getD 15 0)

/-- Is `c` one of the sixteen lowercase hexadecimal digit characters? -/
def isLowerHexDigit (c : Char) : Bool :=
  ((48 ≤ c.toNat) && (c.toNat ≤ 57)) || ((97 ≤ c.toNat) && (c.toNat ≤ 102))

/-! ### Lemmas about the row map -/

/-- Specification of a record freshly inserted by the mutation loop of
`MemoryVectorStore.add` at batch index `i`: the document text is stored; the
embedding is the caller-supplied vector at index `i` when present, and
otherwise the Embedding Provider output for the document; the metadata is the
supplied one at index `i` when present. -/
def AddedRow (embed : String → Except String (List ℚ))
    (embs : Option (List (List ℚ))) (metas : Option (List Meta)) (i : Nat)
    (doc : String) (r : GetResult) : Prop :=
  r.document = doc ∧
  (match embs with
   | some es => r.embedding = es.getD i []
   | none => embed doc = .ok r.embedding) ∧
  r.metadata = metas.map (fun ms => ms.getD i [])

/-- Specification of a record rewritten by the mutation loop of
`MemoryVectorStore.update` at batch index `i`, in terms of the record `old` it
replaces: a supplied document replaces the text (otherwise it is kept); a
supplied embedding wins, otherwise a supplied document is re-embedded via the
provider, otherwise the embedding is kept; a supplied metadata object fully
replaces the old one (otherwise it is kept). -/
def UpdatedRow (embed : String → Except String (List ℚ))
    (docs : Option (List String)) (embs : Option (List (List ℚ)))
    (metas : Option (List Meta)) (i : Nat) (old r : GetResult) : Prop :=
  r.document = (match docs with
                | some ds => ds.getD i ""
                | none => old.document) ∧
  (match embs with
   | some es => r.embedding = es.getD i []
   | none =>
     match docs with
     | some ds => embed (ds.getD i "") = .ok r.embedding
     | none => r.embedding = old.embedding) ∧
  r.metadata = (match metas with
                | some ms => some (ms.getD i [])
                | none => old.metadata)

/-- An always-succeeding one-dimensional Embedding Provider (test double). -/
def wEmbed : String → Except String (List ℚ) := fun _ => .ok [1]

/-- A deterministic id generator (test double for `uuidv4`). -/
def wGen : Nat → String := fun n => toString n

/-- A store holding one record with id `a`. -/
def rowA : GetResult :=
  { id := "a", document := "d", embedding := [1], metadata := none }

def stA : MemState := { rows := [rowA], dim := none }

/-- An add batch re-using the existing id `a`. -/
def pDup : AddParams :=
  { ids := some ["a"], documents := ["x"], embeddings := none, metadatas := none }

/-- An add batch supplying an empty embedding vector. -/
def pNil : AddParams :=
  { ids := some ["n"], documents := ["x"], embeddings := some [[]],
    metadatas := none }

/-- Query parameters with neither texts nor embeddings. -/
def pQNone : QueryParams :=
  { queryTexts := none, queryEmbeddings := none, nResults := none, ids := none,
    predicate := none }

/-- Query parameters with both texts and embeddings. -/
def pQBoth : QueryParams :=
  { queryTexts := some ["t"], queryEmbeddings := some [[1]], nResults := none,
    ids := none, predicate := none }

/-- Query parameters with only embeddings. -/
def pQEmb : QueryParams :=
  { queryTexts := none, queryEmbeddings := some [[1]], nResults := none,
    ids := none, predicate := none }

/-- An Embedding Provider returning vectors of different lengths for
different texts (contract-violating test double). -/
def embedC1 : String → Except String (List ℚ) :=
  fun t => if t = "a" then .ok [1] else .ok [1, 2]

def stEmpty : MemState := { rows := [], dim := none }

/-- A two-document add batch with no caller-supplied embeddings. -/
def pTwoDocs : AddParams :=
  { ids := some ["x", "y"], documents := ["a", "b"], embeddings := none,
    metadatas := none }

/-- A store with established dimension 1 and no records. -/
def stDim1 : MemState := { rows := [], dim := some 1 }

/-- An add batch supplying a length-2 embedding. -/
def pBadDim : AddParams :=
  { ids := some ["x"], documents := ["a"], embeddings := some [[1, 2]],
    metadatas := none }

/-- An Embedding Provider failing on the second document
(test double for a provider failure mid-batch). -/
def embedC2 : String → Except String (List ℚ) :=
  fun t => if t = "a" then .ok [1] else .error "boom"

/-- A delete naming a missing id. -/
def pDelMissing : DeleteParams := { ids := some ["z"], predicate := none }

/-- An add batch whose embeddings array length mismatches the ids. -/
def pLenBad : AddParams :=
  { ids := some ["a"], documents := ["d"], embeddings := some [[1], [2]],
    metadatas := none }

/-- The record of the spec's update example. -/
def rowM : GetResult :=
  { id := "m", document := "alpha", embedding := [1],
    metadata := some [("a", 1)] }

def stM : MemState := { rows := [rowM], dim := none }

/-- The spec example update: a new embedding and new metadata, no document. -/
def pUpd : UpdateParams :=
  { ids := ["m"], embeddings := some [[9]], documents := none,
    metadatas := some [[("b", 2)]] }

/-- The similarity value produced by the embedded code for the witness query
(kept unnormalized: rational normalization is irrelevant to the statement). -/
def simW : ℚ := (0 + 1 * 1) / ((0 + 1 * 1) * (0 + 1 * 1))

/-- The `AddParams` built by the non-failing branch of `splitAddDocument`: one
generated id per chunk, the chunks as documents, no caller embeddings, and the
metadata produced by the optional generator. -/
def splitAddParams (gen : Nat → String) (chunks : List String)
    (mg : Option (List String → List Meta)) : AddParams :=
  { ids := some ((List.range chunks.length).map gen), documents := chunks,
    embeddings := none, metadatas := mg.map (fun g => g chunks) }

/-- A splitter producing two chunks, for the C7 witness. -/
def wSplitC7 : String → Except String (List String) := fun _ => .ok ["alpha", "beta"]

/-- A metadata generator of the wrong cardinality, for the C7 witness. -/
def wBadMeta : List String → List Meta := fun _ => []

/-- The store produced by the successful C7 witness run. -/
def stC7 : MemState :=
  { rows := [{ id := "0", document := "alpha", embedding := [1], metadata := none },
             { id := "1", document := "beta", embedding := [1], metadata := none }],
    dim := none }

/-- A Generative Model stub for the C8 witness. -/
def llmW : List Message → Except String String := fun _ => .ok "out"

/-- Generate parameters with augmentation explicitly off, for the C8 witness. -/
def pGenOff : GenerateParams :=
  { input := .str "hi", augmentedGeneration := some false, nResults := none,
    predicate := none, questionGenerator := none, promptGenerator := none }

/-- Generate parameters with every option defaulted (so augmentation on), for
the C8 witness. -/
def pGenOn : GenerateParams :=
  { input := .str "q", augmentedGeneration := none, nResults := none,
    predicate := none, questionGenerator := none, promptGenerator := none }

theorem rowsGet_id {rows : List GetResult} {id : String} {r : GetResult}
    (h : rowsGet rows id = some r) : r.id = id := by
  unfold rowsGet at h
  have h' := List.find?_some h
  simpa using h'

theorem rowsGet_mem {rows : List GetResult} {id : String} {r : GetResult}
    (h : rowsGet rows id = some r) : r ∈ rows := by
  unfold rowsGet at h
  exact List.mem_of_find?_eq_some h

theorem rowsHas_eq_isSome (rows : List GetResult) (id : String) :
    rowsHas rows id = (rowsGet rows id).isSome := by
  induction rows with
  | nil => rfl
  | cons r rest ih =>
    by_cases h : r.id = id
    · simp [rowsHas, rowsGet, List.find?_cons, h]
    · have hb : (r.id == id) = false := by simpa using h
      simp only [rowsHas, rowsGet, List.any_cons, List.find?_cons, hb] at ih ⊢
      simpa using ih

theorem find?_map_replace_self (g : GetResult) (rows : List GetResult)
    (h : rowsHas rows g.id = true) :
    List.find? (fun r => r.id == g.id)
      (rows.map (fun r => if r.id == g.id then g else r)) = some g := by
  induction rows with
  | nil => simp [rowsHas] at h
  | cons r rest ih =>
    rw [List.map_cons, List.find?_cons]
    by_cases hr : (r.id == g.id) = true
    · rw [if_pos hr]
      have hg : (g.id == g.id) = true := by simp
      rw [hg]
    · have hrf : (r.id == g.id) = false := by simpa using hr
      have hh : rowsHas rest g.id = true := by
        simpa [rowsHas, hrf] using h
      rw [if_neg (by simp [hrf]), hrf]
      exact ih hh

theorem find?_map_replace_ne (g : GetResult) (id : String) (hne : id ≠ g.id)
    (rows : List GetResult) :
    List.find? (fun r => r.id == id)
      (rows.map (fun r => if r.id == g.id then g else r)) =
      List.find? (fun r => r.id == id) rows := by
  have hgb : (g.id == id) = false := by
    simp only [beq_eq_false_iff_ne, ne_eq]
    exact fun e => hne e.symm
  induction rows with
  | nil => rfl
  | cons r rest ih =>
    rw [List.map_cons, List.find?_cons, List.find?_cons]
    by_cases hr : (r.id == g.id) = true
    · have hre : r.id = g.id := by simpa using hr
      have hb : (r.id == id) = false := by
        simp only [beq_eq_false_iff_ne, ne_eq]
        rw [hre]; exact fun e => hne e.symm
      rw [if_pos hr, hgb, hb]
      exact ih
    · have hrf : (r.id == g.id) = false := by simpa using hr
      rw [if_neg (by simp [hrf])]
      by_cases hri : (r.id == id) = true
      · rw [hri]
      · have hrif : (r.id == id) = false := by simpa using hri
        rw [hrif]
        exact ih

theorem rowsGet_set_self (rows : List GetResult) (g : GetResult) :
    rowsGet (rowsSet rows g) g.id = some g := by
  unfold rowsSet rowsGet
  by_cases h : rowsHas rows g.id = true
  · simp only [h, if_true]
    exact find?_map_replace_self g rows h
  · have hf : rowsHas rows g.id = false := by simpa using h
    have hnone : List.find? (fun r => r.id == g.id) rows = none := by
      rw [List.find?_eq_none]
      intro x hx hxe
      have : rowsHas rows g.id = true := by
        unfold rowsHas
        rw [List.any_eq_true]
        exact ⟨x, hx, hxe⟩
      rw [hf] at this
      exact Bool.false_ne_true this
    simp only [hf, Bool.false_eq_true, if_false]
    rw [List.find?_append, hnone]
    simp

theorem rowsGet_set_ne (rows : List GetResult) (g : GetResult) (id : String)
    (hne : id ≠ g.id) : rowsGet (rowsSet rows g) id = rowsGet rows id := by
  have hgb : (g.id == id) = false := by
    simp only [beq_eq_false_iff_ne, ne_eq]
    exact fun e => hne e.symm
  unfold rowsSet rowsGet
  by_cases h : rowsHas rows g.id = true
  · simp only [h, if_true]
    exact find?_map_replace_ne g id hne rows
  · have hf : rowsHas rows g.id = false := by simpa using h
    simp only [hf, Bool.false_eq_true, if_false]
    rw [List.find?_append]
    simp [List.find?_cons, hgb]

theorem rowsSet_forall {P : GetResult → Prop} {rows : List GetResult}
    {g : GetResult} (hrows : ∀ r ∈ rows, P r) (hg : P g) :
    ∀ r ∈ rowsSet rows g, P r := by
  intro r hr
  unfold rowsSet at hr
  by_cases h : rowsHas rows g.id = true
  · rw [if_pos h] at hr
    rcases List.mem_map.mp hr with ⟨x, hx, hfx⟩
    by_cases hxg : (x.id == g.id) = true
    · rw [if_pos hxg] at hfx; exact hfx ▸ hg
    · rw [if_neg hxg] at hfx; exact hfx ▸ hrows x hx
  · rw [if_neg h] at hr
    rcases List.mem_append.mp hr with h1 | h1
    · exact hrows r h1
    · exact (List.mem_singleton.mp h1) ▸ hg

theorem rowsHas_set {rows : List GetResult} {id : String} (g : GetResult)
    (h : rowsHas rows id = true) : rowsHas (rowsSet rows g) id = true := by
  rw [rowsHas_eq_isSome] at h ⊢
  by_cases hid : id = g.id
  · subst hid; rw [rowsGet_set_self]; rfl
  · rw [rowsGet_set_ne rows g id hid]; exact h

/-! ### Lemmas about dimension checking -/

theorem assertAndSetDim_nil (dim : Option Nat) :
    assertAndSetDim dim [] = .error "embedding must be a non-empty vector" := rfl

theorem assertAndSetDim_ok_dim {dim : Option Nat} {vec : List ℚ}
    {dim2 : Option Nat} (h : assertAndSetDim dim vec = .ok dim2) :
    dim2 = some vec.length ∧ vec.length ≠ 0 := by
  unfold assertAndSetDim at h
  split at h
  · exact absurd h (by simp)
  · next h0 =>
    split at h
    · refine ⟨?_, h0⟩
      simpa using h.symm
    · next d =>
      split at h
      · next hd =>
        refine ⟨?_, h0⟩
        have h2 : some d = dim2 := by simpa using h
        rw [← h2, hd]
      · exact absurd h (by simp)

theorem assertAndSetDim_some_ok {d : Nat} {vec : List ℚ} {dim2 : Option Nat}
    (h : assertAndSetDim (some d) vec = .ok dim2) :
    vec.length = d ∧ dim2 = some d := by
  unfold assertAndSetDim at h
  split at h
  · exact absurd h (by simp)
  · split at h
    · next heq => exact absurd heq (by simp)
    · next d2 heq =>
      have hd2 : d = d2 := by simpa using heq
      subst hd2
      split at h
      · next hvd => exact ⟨hvd, by simpa using h.symm⟩
      · exact absurd h (by simp)

theorem assertAndSetDim_some_error_of_ne {d : Nat} {vec : List ℚ}
    (hd : vec.length ≠ d) : ∃ msg, assertAndSetDim (some d) vec = .error msg := by
  cases h : assertAndSetDim (some d) vec with
  | error msg => exact ⟨msg, rfl⟩
  | ok dim2 => exact absurd (assertAndSetDim_some_ok h).1 hd

theorem assertDims_some_ok {d : Nat} :
    ∀ {es : List (List ℚ)} {dim2 : Option Nat},
      assertDims (some d) es = (.ok (), dim2) →
      dim2 = some d ∧ ∀ e ∈ es, e.length = d := by
  intro es
  induction es with
  | nil =>
    intro dim2 h
    unfold assertDims at h
    refine ⟨((Prod.mk.injEq _ _ _ _).mp h).2.symm ▸ rfl, by simp⟩
  | cons e rest ih =>
    intro dim2 h
    unfold assertDims at h
    cases ha : assertAndSetDim (some d) e with
    | error msg => rw [ha] at h; exact absurd ((Prod.mk.injEq _ _ _ _).mp h).1 (by simp)
    | ok dimNext =>
      rw [ha] at h
      obtain ⟨he, rfl⟩ := assertAndSetDim_some_ok ha
      obtain ⟨h1, h2⟩ := ih h
      exact ⟨h1, by
        intro x hx
        rcases List.mem_cons.mp hx with rfl | hx2
        · exact he
        · exact h2 x hx2⟩

theorem assertDims_some_error_of_mismatch {d : Nat} {e : List ℚ}
    (hd : e.length ≠ d) :
    ∀ {es : List (List ℚ)}, e ∈ es →
      ∃ msg, (assertDims (some d) es).1 = .error msg := by
  intro es
  induction es with
  | nil => intro h; exact absurd h (by simp)
  | cons e2 rest ih =>
    intro hmem
    unfold assertDims
    rcases List.mem_cons.mp hmem with rfl | hmem2
    · obtain ⟨msg, hmsg⟩ := assertAndSetDim_some_error_of_ne hd
      rw [hmsg]
      exact ⟨msg, rfl⟩
    · cases ha : assertAndSetDim (some d) e2 with
      | error msg => exact ⟨msg, rfl⟩
      | ok dimNext =>
        obtain ⟨_, rfl⟩ := assertAndSetDim_some_ok ha
        exact ih hmem2

theorem assertAndSetDim_ne_zero {dim : Option Nat} {vec : List ℚ}
    {dim2 : Option Nat} (h : assertAndSetDim dim vec = .ok dim2) :
    dim2 ≠ some 0 := by
  obtain ⟨rfl, hlen⟩ := assertAndSetDim_ok_dim h
  simpa using hlen

theorem assertDims_ne_zero :
    ∀ {es : List (List ℚ)} {dim : Option Nat}, dim ≠ some 0 →
      (assertDims dim es).2 ≠ some 0 := by
  intro es
  induction es with
  | nil => intro dim hdim; exact hdim
  | cons e rest ih =>
    intro dim hdim
    unfold assertDims
    cases ha : assertAndSetDim dim e with
    | error msg => exact hdim
    | ok dimNext => exact ih (assertAndSetDim_ne_zero ha)

theorem assertDims_error_of_nil_mem :
    ∀ {es : List (List ℚ)} {dim : Option Nat}, [] ∈ es →
      ∃ msg, (assertDims dim es).1 = .error msg := by
  intro es
  induction es with
  | nil => intro dim h; exact absurd h (by simp)
  | cons e rest ih =>
    intro dim hmem
    unfold assertDims
    rcases List.mem_cons.mp hmem with rfl | hmem2
    · rw [assertAndSetDim_nil]
      exact ⟨_, rfl⟩
    · cases ha : assertAndSetDim dim e with
      | error msg => exact ⟨msg, rfl⟩
      | ok dimNext => exact ih hmem2

/-! ### Lemmas about the add mutation loop -/

theorem addLoop_some_ok (embed : String → Except String (List ℚ))
    (es : List (List ℚ)) (metas : Option (List Meta)) :
    ∀ (l : List (String × String)) (i : Nat) (rows : List GetResult),
      (addLoop embed (some es) metas l i rows).1 = .ok () := by
  intro l
  induction l with
  | nil => intro i rows; rfl
  | cons p rest ih =>
    intro i rows
    obtain ⟨id, doc⟩ := p
    exact ih (i + 1) _

theorem addLoop_embed_ok (embed : String → Except String (List ℚ))
    (metas : Option (List Meta)) :
    ∀ (l : List (String × String)) (i : Nat) (rows : List GetResult),
      (∀ p ∈ l, ∃ v, embed p.2 = .ok v) →
      (addLoop embed none metas l i rows).1 = .ok () := by
  intro l
  induction l with
  | nil => intro i rows _; rfl
  | cons p rest ih =>
    intro i rows h
    obtain ⟨id, doc⟩ := p
    obtain ⟨v, hv⟩ := h (id, doc) (List.mem_cons_self _ _)
    have he : addEmbedding embed none i doc = .ok v := hv
    unfold addLoop
    rw [he]
    exact ih (i + 1) _ (fun q hq => h q (List.mem_cons_of_mem _ hq))

theorem addLoop_frame (embed : String → Except String (List ℚ))
    (embs : Option (List (List ℚ))) (metas : Option (List Meta)) :
    ∀ (l : List (String × String)) (i : Nat) (rows : List GetResult)
      {res : Except String Unit} {rows2 : List GetResult},
      addLoop embed embs metas l i rows = (res, rows2) →
      ∀ id, (∀ p ∈ l, p.1 ≠ id) → rowsGet rows2 id = rowsGet rows id := by
  intro l
  induction l with
  | nil =>
    intro i rows res rows2 h id _
    unfold addLoop at h
    cases h
    rfl
  | cons p rest ih =>
    intro i rows res rows2 h id hid
    obtain ⟨pid, pdoc⟩ := p
    unfold addLoop at h
    cases hE : addEmbedding embed embs i pdoc with
    | error e =>
      rw [hE] at h
      cases h
      rfl
    | ok emb =>
      rw [hE] at h
      have hrest := ih (i + 1) _ h id (fun q hq => hid q (List.mem_cons_of_mem _ hq))
      rw [hrest]
      exact rowsGet_set_ne _ _ _
        (fun e => (hid (pid, pdoc) (List.mem_cons_self _ _)) e.symm)

theorem addLoop_spec (embed : String → Except String (List ℚ))
    (embs : Option (List (List ℚ))) (metas : Option (List Meta)) :
    ∀ (l : List (String × String)) (i : Nat) (rows : List GetResult)
      {rows2 : List GetResult},
      (l.map Prod.fst).Nodup →
      addLoop embed embs metas l i rows = (.ok (), rows2) →
      ∀ j (hj : j < l.length),
        ∃ r, rowsGet rows2 (l.get ⟨j, hj⟩).1 = some r ∧
          r.id = (l.get ⟨j, hj⟩).1 ∧
          AddedRow embed embs metas (i + j) (l.get ⟨j, hj⟩).2 r := by
  intro l
  induction l with
  | nil =>
    intro i rows rows2 _ _ j hj
    exact absurd hj (by simp)
  | cons p rest ih =>
    intro i rows rows2 hnd h j hj
    obtain ⟨pid, pdoc⟩ := p
    unfold addLoop at h
    cases hE : addEmbedding embed embs i pdoc with
    | error e =>
      rw [hE] at h
      exact absurd ((Prod.mk.injEq _ _ _ _).mp h).1 (by simp)
    | ok emb =>
      rw [hE] at h
      have hnd' : (rest.map Prod.fst).Nodup := (List.nodup_cons.mp (by simpa using hnd)).2
      cases j with
      | zero =>
        have hnotin : ∀ q ∈ rest, q.1 ≠ pid := by
          intro q hq he
          exact (List.nodup_cons.mp (by simpa using hnd)).1
            (List.mem_map.mpr ⟨q, hq, he⟩)
        have hframe := addLoop_frame embed embs metas rest (i + 1) _ h pid hnotin
        rw [Nat.add_zero]
        refine ⟨{ id := pid, document := pdoc, embedding := emb,
                  metadata := metas.map (fun ms => ms.getD i []) },
                ?_, rfl, rfl, ?_, rfl⟩
        · exact hframe.trans (rowsGet_set_self rows
            { id := pid, document := pdoc, embedding := emb,
              metadata := metas.map (fun ms => ms.getD i []) })
        · clear ih h
          cases embs with
          | some es =>
            unfold addEmbedding at hE
            exact (Except.ok.inj hE).symm
          | none => exact hE
      | succ j' =>
        have hj' : j' < rest.length := by simpa using hj
        obtain ⟨r, hr1, hr2, hr3⟩ := ih (i + 1) _ hnd' h j' hj'
        refine ⟨r, ?_, ?_, ?_⟩
        · simpa using hr1
        · simpa using hr2
        · have harith : i + 1 + j' = i + (j' + 1) := by omega
          rw [harith] at hr3
          simpa using hr3

theorem addLoop_len_inv (d : Nat) (embed : String → Except String (List ℚ))
    (embs : Option (List (List ℚ))) (metas : Option (List Meta))
    (hembed : ∀ s v, embed s = .ok v → v.length = d)
    (hembs : ∀ es, embs = some es → ∀ e ∈ es, e.length = d) :
    ∀ (l : List (String × String)) (i : Nat) (rows : List GetResult)
      {res : Except String Unit} {rows2 : List GetResult},
      (∀ es, embs = some es → i + l.length ≤ es.length) →
      addLoop embed embs metas l i rows = (res, rows2) →
      (∀ r ∈ rows, r.embedding.length = d) →
      ∀ r ∈ rows2, r.embedding.length = d := by
  intro l
  induction l with
  | nil =>
    intro i rows res rows2 _ h hrows
    unfold addLoop at h
    cases h
    exact hrows
  | cons p rest ih =>
    intro i rows res rows2 hrange h hrows
    obtain ⟨pid, pdoc⟩ := p
    unfold addLoop at h
    cases hE : addEmbedding embed embs i pdoc with
    | error e =>
      rw [hE] at h
      cases h
      exact hrows
    | ok emb =>
      rw [hE] at h
      have hlen : emb.length = d := by
        cases embs with
        | some es =>
          unfold addEmbedding at hE
          have hi : i < es.length := by
            have := hrange es rfl
            simp only [List.length_cons] at this
            omega
          have hemb : emb = es.getD i [] := (Except.ok.inj hE).symm
          rw [hemb, List.getD_eq_getElem es [] hi]
          exact hembs es rfl _ (List.getElem_mem hi)
        | none => exact hembed pdoc emb hE
      refine ih (i + 1) _ ?_ h ?_
      · intro es hes
        have := hrange es hes
        simp only [List.length_cons] at this
        omega
      · exact rowsSet_forall hrows hlen

/-! ### Lemmas about the update mutation loop -/

theorem updateLoop_nil (embed : String → Except String (List ℚ))
    (docs : Option (List String)) (embs : Option (List (List ℚ)))
    (metas : Option (List Meta)) (i : Nat) (rows : List GetResult) :
    updateLoop embed docs embs metas [] i rows = (.ok (), rows) := rfl

theorem updateLoop_cons (embed : String → Except String (List ℚ))
    (docs : Option (List String)) (embs : Option (List (List ℚ)))
    (metas : Option (List Meta)) (id : String) (rest : List String) (i : Nat)
    (rows : List GetResult) :
    updateLoop embed docs embs metas (id :: rest) i rows =
      match updateEmbedding embed docs embs i
          ((rowsGet rows id).getD (defaultRow id)).embedding with
      | .error e => (.error e, rows)
      | .ok emb =>
        updateLoop embed docs embs metas rest (i + 1)
          (rowsSet rows
            (newUpdateRow docs metas i id
              ((rowsGet rows id).getD (defaultRow id)) emb)) := rfl

theorem newUpdateRow_document (docs : Option (List String))
    (metas : Option (List Meta)) (i : Nat) (id : String) (old : GetResult)
    (emb : List ℚ) :
    (newUpdateRow docs metas i id old emb).document =
      match docs with
      | some ds => ds.getD i ""
      | none => old.document := rfl

theorem newUpdateRow_metadata (docs : Option (List String))
    (metas : Option (List Meta)) (i : Nat) (id : String) (old : GetResult)
    (emb : List ℚ) :
    (newUpdateRow docs metas i id old emb).metadata =
      match metas with
      | some ms => some (ms.getD i [])
      | none => old.metadata := rfl

theorem updateLoop_some_ok (embed : String → Except String (List ℚ))
    (docs : Option (List String)) (es : List (List ℚ))
    (metas : Option (List Meta)) :
    ∀ (l : List String) (i : Nat) (rows : List GetResult),
      (updateLoop embed docs (some es) metas l i rows).1 = .ok () := by
  intro l
  induction l with
  | nil => intro i rows; rfl
  | cons id rest ih => intro i rows; exact ih (i + 1) _

theorem updateLoop_none_none_ok (embed : String → Except String (List ℚ))
    (metas : Option (List Meta)) :
    ∀ (l : List String) (i : Nat) (rows : List GetResult),
      (updateLoop embed none none metas l i rows).1 = .ok () := by
  intro l
  induction l with
  | nil => intro i rows; rfl
  | cons id rest ih => intro i rows; exact ih (i + 1) _

theorem updateLoop_total_ok (embed : String → Except String (List ℚ))
    (ds : List String) (metas : Option (List Meta))
    (hembed : ∀ s, ∃ v, embed s = .ok v) :
    ∀ (l : List String) (i : Nat) (rows : List GetResult),
      (updateLoop embed (some ds) none metas l i rows).1 = .ok () := by
  intro l
  induction l with
  | nil => intro i rows; rfl
  | cons id rest ih =>
    intro i rows
    obtain ⟨v, hv⟩ := hembed (ds.getD i "")
    rw [updateLoop_cons]
    have he : ∀ old : List ℚ, updateEmbedding embed (some ds) none i old = .ok v :=
      fun _ => hv
    rw [he]
    exact ih (i + 1) _

theorem updateLoop_frame (embed : String → Except String (List ℚ))
    (docs : Option (List String)) (embs : Option (List (List ℚ)))
    (metas : Option (List Meta)) :
    ∀ (l : List String) (i : Nat) (rows : List GetResult)
      {res : Except String Unit} {rows2 : List GetResult},
      updateLoop embed docs embs metas l i rows = (res, rows2) →
      ∀ id, id ∉ l → rowsGet rows2 id = rowsGet rows id := by
  intro l
  induction l with
  | nil =>
    intro i rows res rows2 h id _
    rw [updateLoop_nil] at h
    cases h
    rfl
  | cons lid rest ih =>
    intro i rows res rows2 h id hid
    rw [updateLoop_cons] at h
    cases hE : updateEmbedding embed docs embs i
        ((rowsGet rows lid).getD (defaultRow lid)).embedding with
    | error e =>
      rw [hE] at h
      cases h
      rfl
    | ok emb =>
      rw [hE] at h
      have hrest := ih (i + 1) _ h id (fun hm => hid (List.mem_cons_of_mem _ hm))
      rw [hrest]
      exact rowsGet_set_ne _ _ _
        (fun e => hid (e ▸ List.mem_cons_self _ _))

theorem updateLoop_spec (embed : String → Except String (List ℚ))
    (docs : Option (List String)) (embs : Option (List (List ℚ)))
    (metas : Option (List Meta)) :
    ∀ (l : List String) (i : Nat) (rows : List GetResult)
      {rows2 : List GetResult},
      l.Nodup →
      (∀ id ∈ l, rowsHas rows id = true) →
      updateLoop embed docs embs metas l i rows = (.ok (), rows2) →
      ∀ j (hj : j < l.length),
        ∃ old r, rowsGet rows (l.get ⟨j, hj⟩) = some old ∧
          rowsGet rows2 (l.get ⟨j, hj⟩) = some r ∧ r.id = l.get ⟨j, hj⟩ ∧
          UpdatedRow embed docs embs metas (i + j) old r := by
  intro l
  induction l with
  | nil =>
    intro i rows rows2 _ _ _ j hj
    exact absurd hj (by simp)
  | cons lid rest ih =>
    intro i rows rows2 hnd hhas h j hj
    have hgot : (rowsGet rows lid).isSome := by
      rw [← rowsHas_eq_isSome]
      exact hhas lid (List.mem_cons_self _ _)
    cases hg : rowsGet rows lid with
    | none => rw [hg] at hgot; exact absurd hgot (by simp)
    | some old =>
      rw [updateLoop_cons] at h
      rw [hg] at h
      simp only [Option.getD_some] at h
      cases hE : updateEmbedding embed docs embs i old.embedding with
      | error e =>
        rw [hE] at h
        exact absurd ((Prod.mk.injEq _ _ _ _).mp h).1 (by simp)
      | ok emb =>
        rw [hE] at h
        have hlidid : old.id = lid := rowsGet_id hg
        have hnotin : lid ∉ rest := (List.nodup_cons.mp hnd).1
        have hnd' : rest.Nodup := (List.nodup_cons.mp hnd).2
        have hhas' : ∀ id ∈ rest, rowsHas
            (rowsSet rows (newUpdateRow docs metas i lid old emb)) id = true :=
          fun id hm => rowsHas_set _ (hhas id (List.mem_cons_of_mem _ hm))
        cases j with
        | zero =>
          have hframe := updateLoop_frame embed docs embs metas rest (i + 1) _ h
            lid hnotin
          rw [Nat.add_zero]
          refine ⟨old, newUpdateRow docs metas i lid old emb,
                  hg, ?_, rfl, newUpdateRow_document docs metas i lid old emb,
                  ?_, newUpdateRow_metadata docs metas i lid old emb⟩
          · exact hframe.trans (rowsGet_set_self rows _)
          · clear ih h hhas hhas' hframe
            cases embs with
            | some es =>
              unfold updateEmbedding at hE
              exact (Except.ok.inj hE).symm
            | none =>
              cases docs with
              | some ds => exact hE
              | none =>
                unfold updateEmbedding at hE
                exact (Except.ok.inj hE).symm
        | succ j' =>
          have hj' : j' < rest.length := by simpa using hj
          obtain ⟨o2, r, hr0, hr1, hr2, hr3⟩ := ih (i + 1) _ hnd' hhas' h j' hj'
          have htne : rest.get ⟨j', hj'⟩ ≠ lid := by
            intro he
            exact hnotin (he ▸ List.get_mem rest j' hj')
          refine ⟨o2, r, ?_, ?_, ?_, ?_⟩
          · have := rowsGet_set_ne rows
              (newUpdateRow docs metas i lid old emb)
              (rest.get ⟨j', hj'⟩) htne
            rw [this] at hr0
            simpa using hr0
          · simpa using hr1
          · simpa using hr2
          · have harith : i + 1 + j' = i + (j' + 1) := by omega
            rw [harith] at hr3
            simpa using hr3

theorem updateLoop_len_inv (d : Nat) (embed : String → Except String (List ℚ))
    (docs : Option (List String)) (embs : Option (List (List ℚ)))
    (metas : Option (List Meta))
    (hembed : ∀ s v, embed s = .ok v → v.length = d)
    (hembs : ∀ es, embs = some es → ∀ e ∈ es, e.length = d) :
    ∀ (l : List String) (i : Nat) (rows : List GetResult)
      {res : Except String Unit} {rows2 : List GetResult},
      (∀ es, embs = some es → i + l.length ≤ es.length) →
      (∀ id ∈ l, rowsHas rows id = true) →
      updateLoop embed docs embs metas l i rows = (res, rows2) →
      (∀ r ∈ rows, r.embedding.length = d) →
      ∀ r ∈ rows2, r.embedding.length = d := by
  intro l
  induction l with
  | nil =>
    intro i rows res rows2 _ _ h hrows
    rw [updateLoop_nil] at h
    cases h
    exact hrows
  | cons lid rest ih =>
    intro i rows res rows2 hrange hhas h hrows
    have hgot : (rowsGet rows lid).isSome := by
      rw [← rowsHas_eq_isSome]
      exact hhas lid (List.mem_cons_self _ _)
    cases hg : rowsGet rows lid with
    | none => rw [hg] at hgot; exact absurd hgot (by simp)
    | some old =>
      rw [updateLoop_cons, hg] at h
      simp only [Option.getD_some] at h
      cases hE : updateEmbedding embed docs embs i old.embedding with
      | error e =>
        rw [hE] at h
        cases h
        exact hrows
      | ok emb =>
        rw [hE] at h
        have hlen : emb.length = d := by
          cases embs with
          | some es =>
            unfold updateEmbedding at hE
            have hi : i < es.length := by
              have := hrange es rfl
              simp only [List.length_cons] at this
              omega
            have hemb : emb = es.getD i [] := (Except.ok.inj hE).symm
            rw [hemb, List.getD_eq_getElem es [] hi]
            exact hembs es rfl _ (List.getElem_mem hi)
          | none =>
            cases docs with
            | some ds =>
              unfold updateEmbedding at hE
              exact hembed _ emb hE
            | none =>
              unfold updateEmbedding at hE
              have hold : old.embedding = emb := Except.ok.inj hE
              rw [← hold]
              exact hrows old (rowsGet_mem hg)
        refine ih (i + 1) _ ?_ ?_ h (rowsSet_forall hrows hlen)
        · intro es hes
          have := hrange es hes
          simp only [List.length_cons] at this
          omega
        · intro id hm
          exact rowsHas_set _ (hhas id (List.mem_cons_of_mem _ hm))

/-! ### Lemmas about the validation stages -/

theorem assertLengthMatchIds_ok {α : Type} {arr : Option (List α)} {n : Nat}
    (h : ∀ l, arr = some l → l.length = n) :
    assertLengthMatchIds arr n = .ok () := by
  cases arr with
  | none => rfl
  | some l =>
    show (if l.length = n then (Except.ok () : Except String Unit)
          else .error "array length must match ids length") = .ok ()
    rw [if_pos (h l rfl)]

theorem addChecks_dup {st : MemState} {p : AddParams} {ids : List String}
    {id : String}
    (h1 : ∀ es, p.embeddings = some es → es.length = ids.length)
    (h2 : p.documents.length = ids.length)
    (h3 : ∀ ms, p.metadatas = some ms → ms.length = ids.length)
    (hf : ids.find? (fun i => rowsHas st.rows i) = some id) :
    addChecks st p ids = .error ("id already exists: " ++ id) := by
  unfold addChecks
  rw [assertLengthMatchIds_ok h1,
      assertLengthMatchIds_ok (fun l hl => by cases hl; exact h2),
      assertLengthMatchIds_ok h3, hf]

/-! ### Claim C3: duplicate ids reject the whole add call -/

/-- C3: an `add` call whose resolved id list (supplied or generated) contains
an id already present in the store is rejected whole, with the
duplicate-id error naming the first such id, and the store state (its
id-to-record mapping, hence its record count, and its dimension) is exactly
unchanged; no element of the batch is inserted. The array-length preconditions
of the call are assumed to hold, so that the rejection is the duplicate-id
error itself. -/
theorem C3_duplicate_id_rejected (embed : String → Except String (List ℚ))
    (gen : Nat → String) (st : MemState) (p : AddParams)
    (h1 : ∀ es, p.embeddings = some es → es.length = (addIds gen p).length)
    (h2 : p.documents.length = (addIds gen p).length)
    (h3 : ∀ ms, p.metadatas = some ms → ms.length = (addIds gen p).length)
    (hdup : ∃ id ∈ addIds gen p, rowsHas st.rows id = true) :
    ∃ id ∈ addIds gen p, rowsHas st.rows id = true ∧
      MemoryVectorStore.add embed gen st p =
        (.error ("id already exists: " ++ id), st) := by
  cases hf : (addIds gen p).find? (fun i => rowsHas st.rows i) with
  | none =>
    exfalso
    obtain ⟨id0, hmem, hhas⟩ := hdup
    exact (List.find?_eq_none.mp hf id0 hmem) hhas
  | some id =>
    refine ⟨id, List.mem_of_find?_eq_some hf, List.find?_some hf, ?_⟩
    unfold MemoryVectorStore.add
    rw [addChecks_dup h1 h2 h3 hf]

/-- Witness for C3: adding with the already present id `a` is rejected and the
store is unchanged. -/
theorem C3_duplicate_id_rejected_witness :
    ∃ id ∈ addIds wGen pDup, rowsHas stA.rows id = true ∧
      MemoryVectorStore.add wEmbed wGen stA pDup =
        (.error ("id already exists: " ++ id), stA) :=
  C3_duplicate_id_rejected wEmbed wGen stA pDup
    (fun _ h => Option.noConfusion h) rfl (fun _ h => Option.noConfusion h)
    ⟨"a", by decide, by decide⟩

/-! ### Case lemmas for the store operations -/

theorem dimStage_some (dim : Option Nat) (es : List (List ℚ)) :
    dimStage dim (some es) = assertDims dim es := rfl

theorem dimStage_none (dim : Option Nat) :
    dimStage dim none = (.ok (), dim) := rfl

theorem add_checks_error {embed : String → Except String (List ℚ)}
    {gen : Nat → String} {st : MemState} {p : AddParams} {e : String}
    (hc : addChecks st p (addIds gen p) = .error e) :
    MemoryVectorStore.add embed gen st p = (.error e, st) := by
  unfold MemoryVectorStore.add
  rw [hc]

theorem add_dim_error {embed : String → Except String (List ℚ)}
    {gen : Nat → String} {st : MemState} {p : AddParams} {es : List (List ℚ)}
    {msg : String} {dim2 : Option Nat}
    (hpe : p.embeddings = some es)
    (hc : addChecks st p (addIds gen p) = .ok ())
    (hd : assertDims st.dim es = (.error msg, dim2)) :
    MemoryVectorStore.add embed gen st p =
      (.error msg, { st with dim := dim2 }) := by
  unfold MemoryVectorStore.add
  rw [hc, hpe, dimStage_some, hd]

theorem update_checks_error {embed : String → Except String (List ℚ)}
    {st : MemState} {p : UpdateParams} {e : String}
    (hc : updateChecks st p = .error e) :
    MemoryVectorStore.update embed st p = (.error e, st) := by
  unfold MemoryVectorStore.update
  rw [hc]

theorem update_dim_error {embed : String → Except String (List ℚ)}
    {st : MemState} {p : UpdateParams} {es : List (List ℚ)} {msg : String}
    {dim2 : Option Nat}
    (hpe : p.embeddings = some es)
    (hc : updateChecks st p = .ok ())
    (hd : assertDims st.dim es = (.error msg, dim2)) :
    MemoryVectorStore.update embed st p =
      (.error msg, { st with dim := dim2 }) := by
  unfold MemoryVectorStore.update
  rw [hc, hpe, dimStage_some, hd]

theorem add_error_rows_of_nilmem {embed : String → Except String (List ℚ)}
    {gen : Nat → String} {st : MemState} {p : AddParams} {es : List (List ℚ)}
    (hpe : p.embeddings = some es) (hnil : [] ∈ es) :
    (∃ msg, (MemoryVectorStore.add embed gen st p).1 = .error msg) ∧
    (MemoryVectorStore.add embed gen st p).2.rows = st.rows := by
  cases hc : addChecks st p (addIds gen p) with
  | error e =>
    rw [add_checks_error hc]
    exact ⟨⟨e, rfl⟩, rfl⟩
  | ok u =>
    cases u
    obtain ⟨msg, hmsg⟩ := @assertDims_error_of_nil_mem _ st.dim hnil
    cases hd : assertDims st.dim es with
    | mk res dim2 =>
      rw [hd] at hmsg
      rw [add_dim_error hpe hc (by rw [hd, show res = .error msg from hmsg])]
      exact ⟨⟨msg, rfl⟩, rfl⟩

theorem update_error_rows_of_nilmem {embed : String → Except String (List ℚ)}
    {st : MemState} {p : UpdateParams} {es : List (List ℚ)}
    (hpe : p.embeddings = some es) (hnil : [] ∈ es) :
    (∃ msg, (MemoryVectorStore.update embed st p).1 = .error msg) ∧
    (MemoryVectorStore.update embed st p).2.rows = st.rows := by
  cases hc : updateChecks st p with
  | error e =>
    rw [update_checks_error hc]
    exact ⟨⟨e, rfl⟩, rfl⟩
  | ok u =>
    cases u
    obtain ⟨msg, hmsg⟩ := @assertDims_error_of_nil_mem _ st.dim hnil
    cases hd : assertDims st.dim es with
    | mk res dim2 =>
      rw [hd] at hmsg
      rw [update_dim_error hpe hc (by rw [hd, show res = .error msg from hmsg])]
      exact ⟨⟨msg, rfl⟩, rfl⟩

theorem query_error_rows_of_nilmem {msqrt : ℚ → ℚ}
    {embed : String → Except String (List ℚ)} {st : MemState} {p : QueryParams}
    {qes : List (List ℚ)}
    (hqe : p.queryEmbeddings = some qes) (hnil : [] ∈ qes) :
    (∃ msg, (MemoryVectorStore.query msqrt embed st p).1 = .error msg) ∧
    (MemoryVectorStore.query msqrt embed st p).2.rows = st.rows := by
  unfold MemoryVectorStore.query
  by_cases hex : p.queryTexts.isNone = p.queryEmbeddings.isNone
  · rw [if_pos hex]
    exact ⟨⟨_, rfl⟩, rfl⟩
  · rw [if_neg hex]
    cases hf : (p.ids.getD []).find? (fun id => !(rowsHas st.rows id)) with
    | some id => exact ⟨⟨_, rfl⟩, rfl⟩
    | none =>
      obtain ⟨msg, hmsg⟩ := @assertDims_error_of_nil_mem _ st.dim hnil
      cases ha : assertDims st.dim qes with
      | mk res dim2 =>
        rw [ha] at hmsg
        have h1 : buildQueries embed st.dim p =
            (match assertDims st.dim qes with
             | (.ok _, d2) => ((.ok qes : Except String (List (List ℚ))), d2)
             | (.error e, d2) => (.error e, d2)) := by
          unfold buildQueries
          rw [hqe]
        have hbq : buildQueries embed st.dim p = (.error msg, dim2) := by
          rw [h1, ha, show res = .error msg from hmsg]
        rw [hbq]
        exact ⟨⟨msg, rfl⟩, rfl⟩

theorem add_dim_ne_zero {embed : String → Except String (List ℚ)}
    {gen : Nat → String} {st : MemState} {p : AddParams}
    (h : st.dim ≠ some 0) :
    (MemoryVectorStore.add embed gen st p).2.dim ≠ some 0 := by
  unfold MemoryVectorStore.add
  cases hc : addChecks st p (addIds gen p) with
  | error e => exact h
  | ok u =>
    cases u
    cases hpe : p.embeddings with
    | none =>
      rw [dimStage_none]
      cases hl : addLoop embed none p.metadatas ((addIds gen p).zip p.documents)
          0 st.rows with
      | mk res rows2 => cases res <;> exact h
    | some es =>
      rw [dimStage_some]
      cases ha : assertDims st.dim es with
      | mk res dim2 =>
        have hdim2 : dim2 ≠ some 0 := by
          have h2 := @assertDims_ne_zero es _ h
          rw [ha] at h2
          exact h2
        cases res with
        | error e => exact hdim2
        | ok u2 =>
          cases hl : addLoop embed (some es) p.metadatas
              ((addIds gen p).zip p.documents) 0 st.rows with
          | mk res2 rows2 => cases res2 <;> exact hdim2

theorem update_dim_ne_zero {embed : String → Except String (List ℚ)}
    {st : MemState} {p : UpdateParams} (h : st.dim ≠ some 0) :
    (MemoryVectorStore.update embed st p).2.dim ≠ some 0 := by
  unfold MemoryVectorStore.update
  cases hc : updateChecks st p with
  | error e => exact h
  | ok u =>
    cases u
    cases hpe : p.embeddings with
    | none =>
      rw [dimStage_none]
      cases hl : updateLoop embed p.documents none p.metadatas p.ids 0 st.rows with
      | mk res rows2 => cases res <;> exact h
    | some es =>
      rw [dimStage_some]
      cases ha : assertDims st.dim es with
      | mk res dim2 =>
        have hdim2 : dim2 ≠ some 0 := by
          have h2 := @assertDims_ne_zero es _ h
          rw [ha] at h2
          exact h2
        cases res with
        | error e => exact hdim2
        | ok u2 =>
          cases hl : updateLoop embed p.documents (some es) p.metadatas p.ids
              0 st.rows with
          | mk res2 rows2 => cases res2 <;> exact hdim2

theorem query_exclusivity_eq {msqrt : ℚ → ℚ}
    {embed : String → Except String (List ℚ)} {st : MemState} {p : QueryParams}
    (hex : p.queryTexts.isNone = p.queryEmbeddings.isNone) :
    MemoryVectorStore.query msqrt embed st p =
      (.error "Exactly one of queryTexts or queryEmbeddings must be provided",
       st) := by
  unfold MemoryVectorStore.query
  rw [if_pos hex]

theorem query_idnotfound_eq {msqrt : ℚ → ℚ}
    {embed : String → Except String (List ℚ)} {st : MemState} {p : QueryParams}
    {id : String}
    (hex : ¬p.queryTexts.isNone = p.queryEmbeddings.isNone)
    (hf : (p.ids.getD []).find? (fun id => !(rowsHas st.rows id)) = some id) :
    MemoryVectorStore.query msqrt embed st p =
      (.error ("id not found: " ++ id), st) := by
  unfold MemoryVectorStore.query
  rw [if_neg hex, hf]

theorem query_builderr_eq {msqrt : ℚ → ℚ}
    {embed : String → Except String (List ℚ)} {st : MemState} {p : QueryParams}
    {e : String} {dim2 : Option Nat}
    (hex : ¬p.queryTexts.isNone = p.queryEmbeddings.isNone)
    (hf : (p.ids.getD []).find? (fun id => !(rowsHas st.rows id)) = none)
    (hq : buildQueries embed st.dim p = (.error e, dim2)) :
    MemoryVectorStore.query msqrt embed st p =
      (.error e, { st with dim := dim2 }) := by
  unfold MemoryVectorStore.query
  rw [if_neg hex, hf, hq]

theorem query_ok_eq {msqrt : ℚ → ℚ}
    {embed : String → Except String (List ℚ)} {st : MemState} {p : QueryParams}
    {queries : List (List ℚ)} {dim2 : Option Nat}
    (hex : ¬p.queryTexts.isNone = p.queryEmbeddings.isNone)
    (hf : (p.ids.getD []).find? (fun id => !(rowsHas st.rows id)) = none)
    (hq : buildQueries embed st.dim p = (.ok queries, dim2)) :
    MemoryVectorStore.query msqrt embed st p =
      (match queries.mapM
          (scorePool msqrt (p.predicate.getD (fun _ => true)) p.nResults
            (queryPool st p)) with
       | .error e => (.error e, { st with dim := dim2 })
       | .ok results => (.ok results, { st with dim := dim2 })) := by
  unfold MemoryVectorStore.query
  rw [if_neg hex, hf, hq]

theorem buildQueries_dim_ne_zero {embed : String → Except String (List ℚ)}
    {dim : Option Nat} {p : QueryParams} (h : dim ≠ some 0) :
    (buildQueries embed dim p).2 ≠ some 0 := by
  unfold buildQueries
  split
  · next qs hq =>
    split
    · next a dim2 heq =>
      have h2 := @assertDims_ne_zero qs _ h
      rw [heq] at h2
      exact h2
    · next e dim2 heq =>
      have h2 := @assertDims_ne_zero qs _ h
      rw [heq] at h2
      exact h2
  · split
    · exact h
    · exact h

theorem query_dim_ne_zero {msqrt : ℚ → ℚ}
    {embed : String → Except String (List ℚ)} {st : MemState} {p : QueryParams}
    (h : st.dim ≠ some 0) :
    (MemoryVectorStore.query msqrt embed st p).2.dim ≠ some 0 := by
  by_cases hex : p.queryTexts.isNone = p.queryEmbeddings.isNone
  · rw [query_exclusivity_eq hex]
    exact h
  · cases hf : (p.ids.getD []).find? (fun id => !(rowsHas st.rows id)) with
    | some id =>
      rw [query_idnotfound_eq hex hf]
      exact h
    | none =>
      cases hq : buildQueries embed st.dim p with
      | mk res dim2 =>
        have hdim2 : dim2 ≠ some 0 := by
          have h2 := @buildQueries_dim_ne_zero embed _ p h
          rw [hq] at h2
          exact h2
        cases res with
        | error e =>
          rw [query_builderr_eq hex hf hq]
          exact hdim2
        | ok queries =>
          rw [query_ok_eq hex hf hq]
          cases queries.mapM
              (scorePool msqrt (p.predicate.getD (fun _ => true)) p.nResults
                (queryPool st p)) <;> exact hdim2

theorem delete_dim_eq (st : MemState) (p : DeleteParams) :
    (MemoryVectorStore.delete st p).2.dim = st.dim := by
  unfold MemoryVectorStore.delete
  split
  · split <;> rfl
  · split <;> rfl
  · rfl
  · rfl

theorem delete_dim_ne_zero {st : MemState} {p : DeleteParams}
    (h : st.dim ≠ some 0) :
    (MemoryVectorStore.delete st p).2.dim ≠ some 0 := by
  rw [delete_dim_eq]
  exact h

/-! ### Claim C10: empty caller-supplied embeddings are rejected -/

/-- C10: a caller-supplied empty embedding is rejected by the dimension check
with the `embedding must be a non-empty vector` error; an `add`, `update` or
`query` call containing an empty caller-supplied (query) embedding fails and
leaves the id-to-record mapping unchanged; and no operation can ever establish
the store dimension as zero. -/
theorem C10_empty_embedding_rejected :
    (∀ dim, assertAndSetDim dim [] =
      .error "embedding must be a non-empty vector") ∧
    (∀ (embed : String → Except String (List ℚ)) (gen : Nat → String)
       (st : MemState) (p : AddParams) (es : List (List ℚ)),
      p.embeddings = some es → [] ∈ es →
      (∃ msg, (MemoryVectorStore.add embed gen st p).1 = .error msg) ∧
      (MemoryVectorStore.add embed gen st p).2.rows = st.rows) ∧
    (∀ (embed : String → Except String (List ℚ)) (st : MemState)
       (p : UpdateParams) (es : List (List ℚ)),
      p.embeddings = some es → [] ∈ es →
      (∃ msg, (MemoryVectorStore.update embed st p).1 = .error msg) ∧
      (MemoryVectorStore.update embed st p).2.rows = st.rows) ∧
    (∀ (msqrt : ℚ → ℚ) (embed : String → Except String (List ℚ))
       (st : MemState) (p : QueryParams) (qes : List (List ℚ)),
      p.queryEmbeddings = some qes → [] ∈ qes →
      (∃ msg, (MemoryVectorStore.query msqrt embed st p).1 = .error msg) ∧
      (MemoryVectorStore.query msqrt embed st p).2.rows = st.rows) ∧
    (∀ (embed : String → Except String (List ℚ)) (gen : Nat → String)
       (st : MemState) (p : AddParams), st.dim ≠ some 0 →
      (MemoryVectorStore.add embed gen st p).2.dim ≠ some 0) ∧
    (∀ (embed : String → Except String (List ℚ)) (st : MemState)
       (p : UpdateParams), st.dim ≠ some 0 →
      (MemoryVectorStore.update embed st p).2.dim ≠ some 0) ∧
    (∀ (msqrt : ℚ → ℚ) (embed : String → Except String (List ℚ))
       (st : MemState) (p : QueryParams), st.dim ≠ some 0 →
      (MemoryVectorStore.query msqrt embed st p).2.dim ≠ some 0) ∧
    (∀ (st : MemState) (p : DeleteParams), st.dim ≠ some 0 →
      (MemoryVectorStore.delete st p).2.dim ≠ some 0) :=
  ⟨fun dim => assertAndSetDim_nil dim,
   fun _ _ _ _ _ hpe hnil => add_error_rows_of_nilmem hpe hnil,
   fun _ _ _ _ hpe hnil => update_error_rows_of_nilmem hpe hnil,
   fun _ _ _ _ _ hqe hnil => query_error_rows_of_nilmem hqe hnil,
   fun _ _ _ _ h => add_dim_ne_zero h,
   fun _ _ _ h => update_dim_ne_zero h,
   fun _ _ _ _ h => query_dim_ne_zero h,
   fun _ _ h => delete_dim_ne_zero h⟩

/-- Witness for C10: the conjuncts applied at concrete inputs. -/
theorem C10_empty_embedding_rejected_witness :
    (assertAndSetDim none [] = .error "embedding must be a non-empty vector") ∧
    ((∃ msg, (MemoryVectorStore.add wEmbed wGen stA pNil).1 = .error msg) ∧
      (MemoryVectorStore.add wEmbed wGen stA pNil).2.rows = stA.rows) ∧
    (MemoryVectorStore.add wEmbed wGen stA pNil).2.dim ≠ some 0 :=
  ⟨C10_empty_embedding_rejected.1 none,
   C10_empty_embedding_rejected.2.1 wEmbed wGen stA pNil [[]] rfl (by decide),
   C10_empty_embedding_rejected.2.2.2.2.1 wEmbed wGen stA pNil (by decide)⟩

/-! ### Hexadecimal layout lemmas for the identifier generator -/

theorem hexChar_lower {n : Nat} (h : n < 16) : isLowerHexDigit (hexChar n) = true := by
  interval_cases n <;> decide

theorem versionNibble (x : Nat) :
    ((x &&& 15) ||| 64) / 16 = 4 ∧ ((x &&& 15) ||| 64) < 256 := by
  have h : x &&& 15 < 16 := lt_of_le_of_lt Nat.and_le_right (by norm_num)
  generalize x &&& 15 = y at h ⊢
  interval_cases y <;> exact ⟨rfl, by decide⟩

theorem variantNibble (x : Nat) :
    (((x &&& 63) ||| 128) / 16 = 8 ∨ ((x &&& 63) ||| 128) / 16 = 9 ∨
     ((x &&& 63) ||| 128) / 16 = 10 ∨ ((x &&& 63) ||| 128) / 16 = 11) ∧
    ((x &&& 63) ||| 128) < 256 := by
  have h : x &&& 63 < 64 := lt_of_le_of_lt Nat.and_le_right (by norm_num)
  generalize x &&& 63 = y at h ⊢
  interval_cases y <;> exact ⟨by decide, by decide⟩

theorem byteToHex_all_hex {b : Nat} (hb : b < 256) :
    (byteToHex b).data.all isLowerHexDigit = true := by
  show (isLowerHexDigit (hexChar (b / 16)) &&
        (isLowerHexDigit (hexChar (b % 16)) && true)) = true
  rw [hexChar_lower (Nat.div_lt_of_lt_mul hb),
      hexChar_lower (Nat.mod_lt _ (by decide))]
  rfl

/-- C9: for every sequence of 16 random bytes drawn by the generator, the
identifier returned by `uuidv4` is a 36-character string laid out as five
hexadecimal groups of lengths 8-4-4-4-12 separated by dashes, the first hex
digit of the third group is the version nibble 4, and the first hex digit of
the fourth group is one of 8, 9, a, b (the RFC variant range). -/
theorem C9_uuidv4_layout (buf : List Nat) (_hlen : buf.length = 16)
    (hbytes : ∀ b ∈ buf, b < 256) :
    ∃ g1 g2 g3 g4 g5 : String,
      uuidv4 buf = g1 ++ "-" ++ g2 ++ "-" ++ g3 ++ "-" ++ g4 ++ "-" ++ g5 ∧
      g1.length = 8 ∧ g2.length = 4 ∧ g3.length = 4 ∧ g4.length = 4 ∧
      g5.length = 12 ∧ (uuidv4 buf).length = 36 ∧
      g1.data.all isLowerHexDigit = true ∧ g2.data.all isLowerHexDigit = true ∧
      g3.data.all isLowerHexDigit = true ∧ g4.data.all isLowerHexDigit = true ∧
      g5.data.all isLowerHexDigit = true ∧
      g3.data.head? = some '4' ∧
      (g4.data.head? = some '8' ∨ g4.data.head? = some '9' ∨
        g4.data.head? = some 'a' ∨ g4.data.head? = some 'b') := by
  have hb : ∀ i : Nat, buf.getD i 0 < 256 := by
    intro i
    by_cases hi : i < buf.length
    · rw [List.getD_eq_getElem buf 0 hi]
      exact hbytes _ (List.getElem_mem hi)
    · rw [List.getD_eq_default buf 0 (by omega)]
      decide
  refine ⟨byteToHex (buf.getD 0 0) ++ byteToHex (buf.getD 1 0) ++
            byteToHex (buf.getD 2 0) ++ byteToHex (buf.getD 3 0),
          byteToHex (buf.getD 4 0) ++ byteToHex (buf.getD 5 0),
          byteToHex ((buf.getD 6 0 &&& 15) ||| 64) ++ byteToHex (buf.getD 7 0),
          byteToHex ((buf.getD 8 0 &&& 63) ||| 128) ++ byteToHex (buf.getD 9 0),
          byteToHex (buf.getD 10 0) ++ byteToHex (buf.getD 11 0) ++
            byteToHex (buf.getD 12 0) ++ byteToHex (buf.getD 13 0) ++
            byteToHex (buf.getD 14 0) ++ byteToHex (buf.getD 15 0),
          ?_, rfl, rfl, rfl, rfl, rfl, ?_, ?_, ?_, ?_, ?_, ?_, ?_, ?_⟩
  · simp only [uuidv4, String.append_assoc]
  · have heq : uuidv4 buf =
        byteToHex (buf.getD 0 0) ++ byteToHex (buf.getD 1 0) ++
          byteToHex (buf.getD 2 0) ++ byteToHex (buf.getD 3 0) ++ "-" ++
          (byteToHex (buf.getD 4 0) ++ byteToHex (buf.getD 5 0)) ++ "-" ++
          (byteToHex ((buf.getD 6 0 &&& 15) ||| 64) ++ byteToHex (buf.getD 7 0)) ++ "-" ++
          (byteToHex ((buf.getD 8 0 &&& 63) ||| 128) ++ byteToHex (buf.getD 9 0)) ++ "-" ++
          (byteToHex (buf.getD 10 0) ++ byteToHex (buf.getD 11 0) ++
            byteToHex (buf.getD 12 0) ++ byteToHex (buf.getD 13 0) ++
            byteToHex (buf.getD 14 0) ++ byteToHex (buf.getD 15 0)) := by
      simp only [uuidv4, String.append_assoc]
    rw [heq]
    rfl
  · simp only [String.data_append, List.all_append]
    rw [byteToHex_all_hex (hb 0), byteToHex_all_hex (hb 1),
        byteToHex_all_hex (hb 2), byteToHex_all_hex (hb 3)]
    rfl
  · simp only [String.data_append, List.all_append]
    rw [byteToHex_all_hex (hb 4), byteToHex_all_hex (hb 5)]
    rfl
  · simp only [String.data_append, List.all_append]
    rw [byteToHex_all_hex (versionNibble (buf.getD 6 0)).2,
        byteToHex_all_hex (hb 7)]
    rfl
  · simp only [String.data_append, List.all_append]
    rw [byteToHex_all_hex (variantNibble (buf.getD 8 0)).2,
        byteToHex_all_hex (hb 9)]
    rfl
  · simp only [String.data_append, List.all_append]
    rw [byteToHex_all_hex (hb 10), byteToHex_all_hex (hb 11),
        byteToHex_all_hex (hb 12), byteToHex_all_hex (hb 13),
        byteToHex_all_hex (hb 14), byteToHex_all_hex (hb 15)]
    rfl
  · show some (hexChar (((buf.getD 6 0 &&& 15) ||| 64) / 16)) = some '4'
    rw [(versionNibble (buf.getD 6 0)).1]
    rfl
  · rcases (variantNibble (buf.getD 8 0)).1 with h | h | h | h
    · exact Or.inl (by
        show some (hexChar (((buf.getD 8 0 &&& 63) ||| 128) / 16)) = some '8'
        rw [h]
        rfl)
    · exact Or.inr (Or.inl (by
        show some (hexChar (((buf.getD 8 0 &&& 63) ||| 128) / 16)) = some '9'
        rw [h]
        rfl))
    · exact Or.inr (Or.inr (Or.inl (by
        show some (hexChar (((buf.getD 8 0 &&& 63) ||| 128) / 16)) = some 'a'
        rw [h]
        rfl)))
    · exact Or.inr (Or.inr (Or.inr (by
        show some (hexChar (((buf.getD 8 0 &&& 63) ||| 128) / 16)) = some 'b'
        rw [h]
        rfl)))

/-- Witness for C9 at the all-zero byte buffer. -/
theorem C9_uuidv4_layout_witness :
    ∃ g1 g2 g3 g4 g5 : String,
      uuidv4 (List.replicate 16 0) =
        g1 ++ "-" ++ g2 ++ "-" ++ g3 ++ "-" ++ g4 ++ "-" ++ g5 ∧
      g1.length = 8 ∧ g2.length = 4 ∧ g3.length = 4 ∧ g4.length = 4 ∧
      g5.length = 12 ∧ (uuidv4 (List.replicate 16 0)).length = 36 ∧
      g1.data.all isLowerHexDigit = true ∧ g2.data.all isLowerHexDigit = true ∧
      g3.data.all isLowerHexDigit = true ∧ g4.data.all isLowerHexDigit = true ∧
      g5.data.all isLowerHexDigit = true ∧
      g3.data.head? = some '4' ∧
      (g4.data.head? = some '8' ∨ g4.data.head? = some '9' ∨
        g4.data.head? = some 'a' ∨ g4.data.head? = some 'b') :=
  C9_uuidv4_layout (List.replicate 16 0) (by decide) (by decide)

/-! ### Error provenance lemmas for query -/

theorem mapM_error_exists {α β : Type} {f : α → Except String β} {l : List α}
    {e : String} (h : l.mapM f = .error e) : ∃ a ∈ l, f a = .error e := by
  induction l with
  | nil => exact absurd (show (Except.ok [] : Except String (List β)) = .error e from h) (by simp)
  | cons a as ih =>
    rw [List.mapM_cons] at h
    cases hfa : f a with
    | error e2 =>
      refine ⟨a, List.mem_cons_self _ _, ?_⟩
      rw [hfa] at h
      have h2 : e2 = e :=
        Except.error.inj (show (Except.error e2 : Except String (List β)) = .error e from h)
      rw [hfa, h2]
    | ok b =>
      rw [hfa] at h
      cases hm : as.mapM f with
      | ok bs =>
        rw [hm] at h
        exact absurd
          (show (Except.ok (b :: bs) : Except String (List β)) = .error e from h)
          (by simp)
      | error e2 =>
        rw [hm] at h
        have h2 : e2 = e :=
          Except.error.inj (show (Except.error e2 : Except String (List β)) = .error e from h)
        rw [h2] at hm
        obtain ⟨a2, hmem, hfa2⟩ := ih hm
        exact ⟨a2, List.mem_cons_of_mem _ hmem, hfa2⟩

theorem scoreOne_error_eq {msqrt : ℚ → ℚ} {q : List ℚ} {r : GetResult}
    {e : String} (h : scoreOne msqrt q r = .error e) :
    e = "Vectors must be of the same length" := by
  unfold scoreOne cosine dotProduct at h
  by_cases hl : q.length = r.embedding.length
  · rw [if_pos hl] at h
    exact absurd (show Except.ok _ = Except.error e from h) (by simp)
  · rw [if_neg hl] at h
    exact (Except.error.inj
      (show Except.error "Vectors must be of the same length" = .error e from h)).symm

theorem error_head_ne {s t : String} {c c2 : Char}
    (hs : s.data.head? = some c) (ht : t.data.head? = some c2) (hc : c ≠ c2) :
    s ≠ t := by
  intro h
  rw [h, ht] at hs
  exact hc (Option.some.inj hs).symm

theorem assertAndSetDim_error_head {dim : Option Nat} {vec : List ℚ}
    {msg : String} (h : assertAndSetDim dim vec = .error msg) :
    msg.data.head? = some 'e' := by
  unfold assertAndSetDim at h
  split at h
  · rw [← Except.error.inj h]
    rfl
  · split at h
    · exact absurd h (by simp)
    · split at h
      · exact absurd h (by simp)
      · rw [← Except.error.inj h]
        rfl

theorem assertDims_error_head :
    ∀ {es : List (List ℚ)} {dim : Option Nat} {msg : String},
      (assertDims dim es).1 = .error msg → msg.data.head? = some 'e' := by
  intro es
  induction es with
  | nil =>
    intro dim msg h
    exact absurd h (by simp [assertDims])
  | cons e rest ih =>
    intro dim msg h
    unfold assertDims at h
    cases ha : assertAndSetDim dim e with
    | error m2 =>
      rw [ha] at h
      rw [← Except.error.inj h]
      exact assertAndSetDim_error_head ha
    | ok dim2 =>
      rw [ha] at h
      exact ih h

/-- Errors produced by `buildQueries` are dimension-check errors (first
character `e`) or provider errors. -/
theorem buildQueries_error_cases {embed : String → Except String (List ℚ)}
    {dim : Option Nat} {p : QueryParams} {e : String} {dim2 : Option Nat}
    (hq : buildQueries embed dim p = (.error e, dim2)) :
    e.data.head? = some 'e' ∨ ∃ t, embed t = .error e := by
  unfold buildQueries at hq
  split at hq
  · next qs hqe =>
    split at hq
    · next a d2 heq =>
      exact absurd ((Prod.mk.injEq _ _ _ _).mp hq).1 (by simp)
    · next e2 d2 heq =>
      obtain ⟨h1, _⟩ := (Prod.mk.injEq _ _ _ _).mp hq
      have he : e2 = e := Except.error.inj h1
      refine Or.inl ?_
      rw [← he]
      exact assertDims_error_head (by rw [heq])
  · split at hq
    · next ts hts =>
      obtain ⟨h1, _⟩ := (Prod.mk.injEq _ _ _ _).mp hq
      obtain ⟨t, _, hft⟩ := mapM_error_exists h1
      exact Or.inr ⟨t, hft⟩
    · exact absurd ((Prod.mk.injEq _ _ _ _).mp hq).1 (by simp)

/-! ### Claim C4: query argument exclusivity -/

/-- C4: a query call fails with the `InvalidArgument` exclusivity error, before
any retrieval work (for every provider and every store state alike), whenever
the query-text and query-embedding arguments are both absent or both present;
when exactly one is present the call never fails with that error (assuming the
provider does not itself throw the exact exclusivity message). -/
theorem C4_query_exclusivity :
    (∀ (msqrt : ℚ → ℚ) (embed : String → Except String (List ℚ))
       (st : MemState) (p : QueryParams),
      p.queryTexts = none → p.queryEmbeddings = none →
      MemoryVectorStore.query msqrt embed st p =
        (.error "Exactly one of queryTexts or queryEmbeddings must be provided",
         st)) ∧
    (∀ (msqrt : ℚ → ℚ) (embed : String → Except String (List ℚ))
       (st : MemState) (p : QueryParams) (ts : List String)
       (qes : List (List ℚ)),
      p.queryTexts = some ts → p.queryEmbeddings = some qes →
      MemoryVectorStore.query msqrt embed st p =
        (.error "Exactly one of queryTexts or queryEmbeddings must be provided",
         st)) ∧
    (∀ (msqrt : ℚ → ℚ) (embed : String → Except String (List ℚ))
       (st : MemState) (p : QueryParams),
      ¬p.queryTexts.isNone = p.queryEmbeddings.isNone →
      (∀ t, embed t ≠
        .error "Exactly one of queryTexts or queryEmbeddings must be provided") →
      (MemoryVectorStore.query msqrt embed st p).1 ≠
        .error "Exactly one of queryTexts or queryEmbeddings must be provided") := by
  refine ⟨?_, ?_, ?_⟩
  · intro msqrt embed st p h1 h2
    exact query_exclusivity_eq (by simp [h1, h2])
  · intro msqrt embed st p ts qes h1 h2
    exact query_exclusivity_eq (by simp [h1, h2])
  · intro msqrt embed st p hex hemb
    cases hf : (p.ids.getD []).find? (fun id => !(rowsHas st.rows id)) with
    | some id =>
      rw [query_idnotfound_eq hex hf]
      intro hcontra
      exact @error_head_ne ("id not found: " ++ id)
        "Exactly one of queryTexts or queryEmbeddings must be provided"
        'i' 'E' rfl rfl (by decide) (Except.error.inj hcontra)
    | none =>
      cases hq : buildQueries embed st.dim p with
      | mk res dim2 =>
        cases res with
        | error e =>
          rw [query_builderr_eq hex hf hq]
          intro hcontra
          have he := Except.error.inj hcontra
          rcases buildQueries_error_cases hq with hh | ⟨t, ht⟩
          · exact @error_head_ne e
              "Exactly one of queryTexts or queryEmbeddings must be provided"
              'e' 'E' hh rfl (by decide) he
          · exact hemb t (by rw [ht, he])
        | ok queries =>
          rw [query_ok_eq hex hf hq]
          cases hm : queries.mapM
              (scorePool msqrt (p.predicate.getD (fun _ => true)) p.nResults
                (queryPool st p)) with
          | ok results => intro hcontra; exact Except.noConfusion hcontra
          | error e =>
            intro hcontra
            have he : e =
                "Exactly one of queryTexts or queryEmbeddings must be provided" :=
              Except.error.inj hcontra
            obtain ⟨q, _, hsp⟩ := mapM_error_exists hm
            unfold scorePool at hsp
            have hsp2 : (queryPool st p).mapM (scoreOne msqrt q) = .error e := by
              cases hmm : (queryPool st p).mapM (scoreOne msqrt q) with
              | error e2 =>
                rw [hmm] at hsp
                have h2 : e2 = e := Except.error.inj
                  (show (Except.error e2 : Except String (List QueryResult)) =
                    .error e from hsp)
                rw [← h2]
              | ok sc =>
                rw [hmm] at hsp
                exact absurd (show Except.ok _ = Except.error e from hsp) (by simp)
            obtain ⟨r, _, hso⟩ := mapM_error_exists hsp2
            have hv := scoreOne_error_eq hso
            rw [he] at hv
            exact absurd hv (by decide)

/-- Witness for C4: at a concrete store, `query` with neither or both
arguments fails with the exclusivity error, and with exactly one argument it
does not fail with that error. -/
theorem C4_query_exclusivity_witness :
    MemoryVectorStore.query id wEmbed stA pQNone =
      (.error "Exactly one of queryTexts or queryEmbeddings must be provided",
       stA) ∧
    MemoryVectorStore.query id wEmbed stA pQBoth =
      (.error "Exactly one of queryTexts or queryEmbeddings must be provided",
       stA) ∧
    (MemoryVectorStore.query id wEmbed stA pQEmb).1 ≠
      .error "Exactly one of queryTexts or queryEmbeddings must be provided" :=
  ⟨C4_query_exclusivity.1 id wEmbed stA pQNone rfl rfl,
   C4_query_exclusivity.2.1 id wEmbed stA pQBoth ["t"] [[1]] rfl rfl,
   C4_query_exclusivity.2.2 id wEmbed stA pQEmb (by decide)
     (fun _ h => Except.noConfusion h)⟩

/-! ### Extraction lemmas for the validation stages -/

theorem assertLengthMatchIds_ok_elim {α : Type} {arr : Option (List α)}
    {n : Nat} (h : assertLengthMatchIds arr n = .ok ()) :
    ∀ l, arr = some l → l.length = n := by
  intro l hl
  subst hl
  by_cases hn : l.length = n
  · exact hn
  · exfalso
    have h2 : (if l.length = n then (Except.ok () : Except String Unit)
               else .error "array length must match ids length") = .ok () := h
    rw [if_neg hn] at h2
    exact Except.noConfusion h2

theorem addChecks_ok_elim {st : MemState} {p : AddParams} {ids : List String}
    (h : addChecks st p ids = .ok ()) :
    (∀ es, p.embeddings = some es → es.length = ids.length) ∧
    p.documents.length = ids.length ∧
    (∀ ms, p.metadatas = some ms → ms.length = ids.length) ∧
    ids.find? (fun id => rowsHas st.rows id) = none := by
  unfold addChecks at h
  cases h1 : assertLengthMatchIds p.embeddings ids.length with
  | error e => rw [h1] at h; exact absurd h (by simp)
  | ok u =>
    cases u
    rw [h1] at h
    cases h2 : assertLengthMatchIds (some p.documents) ids.length with
    | error e => rw [h2] at h; exact absurd h (by simp)
    | ok u =>
      cases u
      rw [h2] at h
      cases h3 : assertLengthMatchIds p.metadatas ids.length with
      | error e => rw [h3] at h; exact absurd h (by simp)
      | ok u =>
        cases u
        rw [h3] at h
        cases h4 : ids.find? (fun id => rowsHas st.rows id) with
        | some id => rw [h4] at h; exact absurd h (by simp)
        | none =>
          exact ⟨assertLengthMatchIds_ok_elim h1,
                 assertLengthMatchIds_ok_elim h2 p.documents rfl,
                 assertLengthMatchIds_ok_elim h3, rfl⟩

theorem updateChecks_ok_elim {st : MemState} {p : UpdateParams}
    (h : updateChecks st p = .ok ()) :
    (∀ es, p.embeddings = some es → es.length = p.ids.length) ∧
    (∀ ds, p.documents = some ds → ds.length = p.ids.length) ∧
    (∀ ms, p.metadatas = some ms → ms.length = p.ids.length) ∧
    (∀ id ∈ p.ids, rowsHas st.rows id = true) := by
  unfold updateChecks at h
  cases h1 : assertLengthMatchIds p.embeddings p.ids.length with
  | error e => rw [h1] at h; exact absurd h (by simp)
  | ok u =>
    cases u
    rw [h1] at h
    cases h2 : assertLengthMatchIds p.documents p.ids.length with
    | error e => rw [h2] at h; exact absurd h (by simp)
    | ok u =>
      cases u
      rw [h2] at h
      cases h3 : assertLengthMatchIds p.metadatas p.ids.length with
      | error e => rw [h3] at h; exact absurd h (by simp)
      | ok u =>
        cases u
        rw [h3] at h
        cases h4 : p.ids.find? (fun id => !(rowsHas st.rows id)) with
        | some id => rw [h4] at h; exact absurd h (by simp)
        | none =>
          refine ⟨assertLengthMatchIds_ok_elim h1,
                  assertLengthMatchIds_ok_elim h2,
                  assertLengthMatchIds_ok_elim h3, ?_⟩
          intro id hid
          have := List.find?_eq_none.mp h4 id hid
          simpa using this

theorem add_loop_eq {embed : String → Except String (List ℚ)}
    {gen : Nat → String} {st : MemState} {p : AddParams} {dim2 : Option Nat}
    (hc : addChecks st p (addIds gen p) = .ok ())
    (hd : dimStage st.dim p.embeddings = (.ok (), dim2)) :
    MemoryVectorStore.add embed gen st p =
      (match addLoop embed p.embeddings p.metadatas
          ((addIds gen p).zip p.documents) 0 st.rows with
       | (.ok _, rows2) => (.ok (addIds gen p), { rows := rows2, dim := dim2 })
       | (.error e, rows2) => (.error e, { rows := rows2, dim := dim2 })) := by
  unfold MemoryVectorStore.add
  rw [hc, hd]

theorem update_loop_eq {embed : String → Except String (List ℚ)}
    {st : MemState} {p : UpdateParams} {dim2 : Option Nat}
    (hc : updateChecks st p = .ok ())
    (hd : dimStage st.dim p.embeddings = (.ok (), dim2)) :
    MemoryVectorStore.update embed st p =
      (match updateLoop embed p.documents p.embeddings p.metadatas p.ids
          0 st.rows with
       | (.ok _, rows2) => (.ok (), { rows := rows2, dim := dim2 })
       | (.error e, rows2) => (.error e, { rows := rows2, dim := dim2 })) := by
  unfold MemoryVectorStore.update
  rw [hc, hd]

/-- A successful batch `add` returns exactly the resolved ids, their count
matches the documents, and (when the resolved ids are distinct) every batch
element is stored in the final rows with the source's per-index semantics. -/
theorem add_ok_spec {embed : String → Except String (List ℚ)}
    {gen : Nat → String} {st : MemState} {p : AddParams}
    {ids2 : List String} {st2 : MemState}
    (h : MemoryVectorStore.add embed gen st p = (.ok ids2, st2)) :
    ids2 = addIds gen p ∧
    p.documents.length = (addIds gen p).length ∧
    ((addIds gen p).Nodup →
      ∀ j (hj : j < (addIds gen p).length),
        ∃ r, rowsGet st2.rows ((addIds gen p).get ⟨j, hj⟩) = some r ∧
          r.id = (addIds gen p).get ⟨j, hj⟩ ∧
          AddedRow embed p.embeddings p.metadatas j (p.documents.getD j "") r) := by
  unfold MemoryVectorStore.add at h
  cases hc : addChecks st p (addIds gen p) with
  | error e => rw [hc] at h; exact absurd ((Prod.mk.injEq _ _ _ _).mp h).1 (by simp)
  | ok u =>
    cases u
    rw [hc] at h
    cases hd : dimStage st.dim p.embeddings with
    | mk res dim2 =>
      rw [hd] at h
      cases res with
      | error e => exact absurd ((Prod.mk.injEq _ _ _ _).mp h).1 (by simp)
      | ok u2 =>
        cases u2
        cases hl : addLoop embed p.embeddings p.metadatas
            ((addIds gen p).zip p.documents) 0 st.rows with
        | mk res2 rows2 =>
          rw [hl] at h
          cases res2 with
          | error e =>
            exact absurd ((Prod.mk.injEq _ _ _ _).mp h).1 (by simp)
          | ok u3 =>
            cases u3
            obtain ⟨h1, h2⟩ := (Prod.mk.injEq _ _ _ _).mp h
            have hlen := (addChecks_ok_elim hc).2.1
            refine ⟨(Except.ok.inj h1).symm, hlen, ?_⟩
            intro hnd j hj
            have hmapfst : (((addIds gen p).zip p.documents).map Prod.fst)
                = addIds gen p :=
              List.map_fst_zip _ _ (le_of_eq hlen.symm)
            have hndl : ((((addIds gen p).zip p.documents)).map Prod.fst).Nodup := by
              rw [hmapfst]; exact hnd
            have hjl : j < ((addIds gen p).zip p.documents).length := by
              rw [List.length_zip]; omega
            obtain ⟨r, hr1, hr2, hr3⟩ := addLoop_spec embed p.embeddings
              p.metadatas _ 0 st.rows hndl hl j hjl
            have hjd : j < p.documents.length := by omega
            have hget : ((addIds gen p).zip p.documents).get ⟨j, hjl⟩
                = ((addIds gen p).get ⟨j, hj⟩, p.documents.getD j "") := by
              rw [List.getD_eq_getElem p.documents "" hjd]
              simp [List.getElem_zip]
            rw [hget] at hr1 hr2 hr3
            rw [Nat.zero_add] at hr3
            rw [← h2]
            exact ⟨r, hr1, hr2, hr3⟩

/-! ### Claim C1: the dimension invariant (corrected) -/

/-- Counterexample to C1 as stated: one `add` call whose embeddings are
computed by the Embedding Provider succeeds while storing embeddings of
lengths 1 and 2, so a stored embedding differs in length from the first
successfully stored one and no call was rejected. -/
theorem C1_counterexample :
    (MemoryVectorStore.add embedC1 wGen stEmpty pTwoDocs).1 = .ok ["x", "y"] ∧
    ((MemoryVectorStore.add embedC1 wGen stEmpty pTwoDocs).2.rows.map
      (fun r => r.embedding.length)) = [1, 2] := by
  constructor <;> rfl

/-- C1 (amended): the dimension invariant is enforced for caller-supplied
embeddings only. An `add` or `update` supplying an embedding whose length
differs from the established dimension is rejected and leaves the
id-to-record mapping unchanged; embeddings computed by the Embedding Provider
from document text are stored without length validation, so all stored
embeddings keep the established length provided the provider returns only
vectors of that length. -/
theorem C1_dimension_invariant_amended :
    (∀ (embed : String → Except String (List ℚ)) (gen : Nat → String)
       (st : MemState) (p : AddParams) (d : Nat) (es : List (List ℚ))
       (e : List ℚ),
      st.dim = some d → p.embeddings = some es → e ∈ es → e.length ≠ d →
      (∃ msg, (MemoryVectorStore.add embed gen st p).1 = .error msg) ∧
      (MemoryVectorStore.add embed gen st p).2.rows = st.rows) ∧
    (∀ (embed : String → Except String (List ℚ)) (st : MemState)
       (p : UpdateParams) (d : Nat) (es : List (List ℚ)) (e : List ℚ),
      st.dim = some d → p.embeddings = some es → e ∈ es → e.length ≠ d →
      (∃ msg, (MemoryVectorStore.update embed st p).1 = .error msg) ∧
      (MemoryVectorStore.update embed st p).2.rows = st.rows) ∧
    (∀ (embed : String → Except String (List ℚ)) (gen : Nat → String)
       (st : MemState) (p : AddParams) (d : Nat),
      st.dim = some d → (∀ r ∈ st.rows, r.embedding.length = d) →
      (∀ s v, embed s = .ok v → v.length = d) →
      ∀ r ∈ (MemoryVectorStore.add embed gen st p).2.rows,
        r.embedding.length = d) ∧
    (∀ (embed : String → Except String (List ℚ)) (st : MemState)
       (p : UpdateParams) (d : Nat),
      st.dim = some d → (∀ r ∈ st.rows, r.embedding.length = d) →
      (∀ s v, embed s = .ok v → v.length = d) →
      ∀ r ∈ (MemoryVectorStore.update embed st p).2.rows,
        r.embedding.length = d) := by
  refine ⟨?_, ?_, ?_, ?_⟩
  · intro embed gen st p d es e hdim hpe hmem hlen
    cases hc : addChecks st p (addIds gen p) with
    | error e2 =>
      rw [add_checks_error hc]
      exact ⟨⟨e2, rfl⟩, rfl⟩
    | ok u =>
      cases u
      obtain ⟨msg, hmsg⟩ := assertDims_some_error_of_mismatch hlen hmem
      rw [← hdim] at hmsg
      cases hd2 : assertDims st.dim es with
      | mk res dim2 =>
        rw [hd2] at hmsg
        rw [add_dim_error hpe hc (by rw [hd2, show res = .error msg from hmsg])]
        exact ⟨⟨msg, rfl⟩, rfl⟩
  · intro embed st p d es e hdim hpe hmem hlen
    cases hc : updateChecks st p with
    | error e2 =>
      rw [update_checks_error hc]
      exact ⟨⟨e2, rfl⟩, rfl⟩
    | ok u =>
      cases u
      obtain ⟨msg, hmsg⟩ := assertDims_some_error_of_mismatch hlen hmem
      rw [← hdim] at hmsg
      cases hd2 : assertDims st.dim es with
      | mk res dim2 =>
        rw [hd2] at hmsg
        rw [update_dim_error hpe hc (by rw [hd2, show res = .error msg from hmsg])]
        exact ⟨⟨msg, rfl⟩, rfl⟩
  · intro embed gen st p d hdim hrows hembed
    cases hc : addChecks st p (addIds gen p) with
    | error e2 =>
      rw [add_checks_error hc]
      exact hrows
    | ok u =>
      cases u
      obtain ⟨h1, h2, _, _⟩ := addChecks_ok_elim hc
      cases hd : dimStage st.dim p.embeddings with
      | mk res dim2 =>
        cases res with
        | error e2 =>
          have heq : MemoryVectorStore.add embed gen st p =
              (.error e2, { st with dim := dim2 }) := by
            unfold MemoryVectorStore.add
            rw [hc, hd]
          rw [heq]
          exact hrows
        | ok u2 =>
          cases u2
          rw [add_loop_eq hc hd]
          have hembs : ∀ es, p.embeddings = some es → ∀ e ∈ es, e.length = d := by
            intro es hes
            rw [hes, dimStage_some, hdim] at hd
            exact (assertDims_some_ok hd).2
          have hrange : ∀ es, p.embeddings = some es →
              0 + ((addIds gen p).zip p.documents).length ≤ es.length := by
            intro es hes
            have hlen := h1 es hes
            have hz : ((addIds gen p).zip p.documents).length =
                min (addIds gen p).length p.documents.length :=
              List.length_zip _ _
            omega
          cases hl : addLoop embed p.embeddings p.metadatas
              ((addIds gen p).zip p.documents) 0 st.rows with
          | mk res2 rows2 =>
            have hinv := addLoop_len_inv d embed p.embeddings p.metadatas
              hembed hembs ((addIds gen p).zip p.documents) 0 st.rows
              hrange hl hrows
            cases res2 <;> exact hinv
  · intro embed st p d hdim hrows hembed
    cases hc : updateChecks st p with
    | error e2 =>
      rw [update_checks_error hc]
      exact hrows
    | ok u =>
      cases u
      obtain ⟨h1, _, _, hhas⟩ := updateChecks_ok_elim hc
      cases hd : dimStage st.dim p.embeddings with
      | mk res dim2 =>
        cases res with
        | error e2 =>
          have heq : MemoryVectorStore.update embed st p =
              (.error e2, { st with dim := dim2 }) := by
            unfold MemoryVectorStore.update
            rw [hc, hd]
          rw [heq]
          exact hrows
        | ok u2 =>
          cases u2
          rw [update_loop_eq hc hd]
          have hembs : ∀ es, p.embeddings = some es → ∀ e ∈ es, e.length = d := by
            intro es hes
            rw [hes, dimStage_some, hdim] at hd
            exact (assertDims_some_ok hd).2
          have hrange : ∀ es, p.embeddings = some es →
              0 + p.ids.length ≤ es.length := by
            intro es hes
            have hlen := h1 es hes
            omega
          cases hl : updateLoop embed p.documents p.embeddings p.metadatas
              p.ids 0 st.rows with
          | mk res2 rows2 =>
            have hinv := updateLoop_len_inv d embed p.documents p.embeddings
              p.metadatas hembed hembs p.ids 0 st.rows hrange hhas hl hrows
            cases res2 <;> exact hinv

/-- Witness for C1 (amended): a mismatched caller-supplied embedding is
rejected leaving the mapping unchanged, and with a dimension-respecting
provider every stored embedding keeps the established length. -/
theorem C1_dimension_invariant_amended_witness :
    ((∃ msg, (MemoryVectorStore.add wEmbed wGen stDim1 pBadDim).1 = .error msg) ∧
      (MemoryVectorStore.add wEmbed wGen stDim1 pBadDim).2.rows = stDim1.rows) ∧
    (∀ r ∈ (MemoryVectorStore.add wEmbed wGen stDim1 pTwoDocs).2.rows,
      r.embedding.length = 1) :=
  ⟨C1_dimension_invariant_amended.1 wEmbed wGen stDim1 pBadDim 1 [[1, 2]]
     [1, 2] rfl rfl (by decide) (by decide),
   C1_dimension_invariant_amended.2.2.1 wEmbed wGen stDim1 pTwoDocs 1 rfl
     (fun r hr => absurd hr (List.not_mem_nil r))
     (fun _ v h => by cases h; rfl)⟩

/-! ### Claim C2: batch atomicity (corrected) -/

/-- Counterexample to C2 as stated: an `add` call that fails because the
Embedding Provider throws on the second document leaves the first document
inserted, so the id-to-record mapping after the failed call differs from the
mapping before it. -/
theorem C2_counterexample :
    (MemoryVectorStore.add embedC2 wGen stEmpty pTwoDocs).1 = .error "boom" ∧
    (MemoryVectorStore.add embedC2 wGen stEmpty pTwoDocs).2.rows ≠
      stEmpty.rows := by
  exact ⟨rfl, by decide⟩

theorem delete_cases (st : MemState) (p : DeleteParams) :
    (∃ u, (MemoryVectorStore.delete st p).1 = .ok u) ∨
    (MemoryVectorStore.delete st p).2 = st := by
  unfold MemoryVectorStore.delete
  split
  · split
    · exact Or.inr rfl
    · exact Or.inl ⟨(), rfl⟩
  · split
    · exact Or.inr rfl
    · exact Or.inl ⟨(), rfl⟩
  · exact Or.inl ⟨(), rfl⟩
  · exact Or.inl ⟨(), rfl⟩

/-- C2 (amended): batch operations are all-or-nothing at the validation
stage. A failing `delete` always leaves the whole state unchanged; a failing
`add` leaves the id-to-record mapping unchanged whenever its embeddings were
caller-supplied or the Embedding Provider succeeds on the batch documents; a
failing `update` likewise when its embeddings were caller-supplied, no new
documents were given, or the provider is total. (When the provider fails
mid-batch during the mutation phase, already-written elements remain applied
— see the counterexample.) -/
theorem C2_validation_atomicity_amended :
    (∀ (st : MemState) (p : DeleteParams) (e : String),
      (MemoryVectorStore.delete st p).1 = .error e →
      (MemoryVectorStore.delete st p).2 = st) ∧
    (∀ (embed : String → Except String (List ℚ)) (gen : Nat → String)
       (st : MemState) (p : AddParams) (e : String),
      (p.embeddings = none → ∀ doc ∈ p.documents, ∃ v, embed doc = .ok v) →
      (MemoryVectorStore.add embed gen st p).1 = .error e →
      (MemoryVectorStore.add embed gen st p).2.rows = st.rows) ∧
    (∀ (embed : String → Except String (List ℚ)) (st : MemState)
       (p : UpdateParams) (e : String),
      (p.embeddings = none →
        p.documents = none ∨ ∀ s, ∃ v, embed s = .ok v) →
      (MemoryVectorStore.update embed st p).1 = .error e →
      (MemoryVectorStore.update embed st p).2.rows = st.rows) := by
  refine ⟨?_, ?_, ?_⟩
  · intro st p e h
    rcases delete_cases st p with ⟨u, hok⟩ | h2
    · rw [h] at hok
      exact absurd hok (by simp)
    · exact h2
  · intro embed gen st p e hsafe h
    cases hc : addChecks st p (addIds gen p) with
    | error e2 =>
      rw [add_checks_error hc]
    | ok u =>
      cases u
      cases hd : dimStage st.dim p.embeddings with
      | mk res dim2 =>
        cases res with
        | error e2 =>
          have heq : MemoryVectorStore.add embed gen st p =
              (.error e2, { st with dim := dim2 }) := by
            unfold MemoryVectorStore.add
            rw [hc, hd]
          rw [heq]
        | ok u2 =>
          cases u2
          exfalso
          have hok : (addLoop embed p.embeddings p.metadatas
              ((addIds gen p).zip p.documents) 0 st.rows).1 = .ok () := by
            cases hpe : p.embeddings with
            | some es => exact addLoop_some_ok embed es p.metadatas _ 0 st.rows
            | none =>
              exact addLoop_embed_ok embed p.metadatas _ 0 st.rows
                (fun pr hpr => hsafe hpe pr.2 (List.of_mem_zip hpr).2)
          rw [add_loop_eq hc hd] at h
          cases hl : addLoop embed p.embeddings p.metadatas
              ((addIds gen p).zip p.documents) 0 st.rows with
          | mk res2 rows2 =>
            rw [hl] at h hok
            rw [show res2 = .ok () from hok] at h
            exact Except.noConfusion
              (show Except.ok (addIds gen p) = Except.error e from h)
  · intro embed st p e hsafe h
    cases hc : updateChecks st p with
    | error e2 =>
      rw [update_checks_error hc]
    | ok u =>
      cases u
      cases hd : dimStage st.dim p.embeddings with
      | mk res dim2 =>
        cases res with
        | error e2 =>
          have heq : MemoryVectorStore.update embed st p =
              (.error e2, { st with dim := dim2 }) := by
            unfold MemoryVectorStore.update
            rw [hc, hd]
          rw [heq]
        | ok u2 =>
          cases u2
          exfalso
          have hok : (updateLoop embed p.documents p.embeddings p.metadatas
              p.ids 0 st.rows).1 = .ok () := by
            cases hpe : p.embeddings with
            | some es =>
              exact updateLoop_some_ok embed p.documents es p.metadatas _ 0
                st.rows
            | none =>
              rcases hsafe hpe with hds | htotal
              · rw [hds]
                exact updateLoop_none_none_ok embed p.metadatas _ 0 st.rows
              · cases hds : p.documents with
                | none =>
                  exact updateLoop_none_none_ok embed p.metadatas _ 0 st.rows
                | some ds =>
                  exact updateLoop_total_ok embed ds p.metadatas htotal _ 0
                    st.rows
          rw [update_loop_eq hc hd] at h
          cases hl : updateLoop embed p.documents p.embeddings p.metadatas
              p.ids 0 st.rows with
          | mk res2 rows2 =>
            rw [hl] at h hok
            rw [show res2 = .ok () from hok] at h
            exact Except.noConfusion
              (show Except.ok () = Except.error e from h)

/-- Witness for C2 (amended): a failing delete and a failing validated add
leave the store untouched. -/
theorem C2_validation_atomicity_amended_witness :
    (MemoryVectorStore.delete stEmpty pDelMissing).2 = stEmpty ∧
    (MemoryVectorStore.add wEmbed wGen stEmpty pLenBad).2.rows =
      stEmpty.rows :=
  ⟨C2_validation_atomicity_amended.1 stEmpty pDelMissing "id not found: z" rfl,
   C2_validation_atomicity_amended.2.1 wEmbed wGen stEmpty pLenBad
     "array length must match ids length" (fun h => Option.noConfusion h) rfl⟩

/-! ### Claim C6: update field semantics -/

/-- C6: for every successful `update` call with pairwise-distinct ids, each
updated record satisfies `UpdatedRow`: a new document with no new embedding
stores the provider embedding of the new text, an explicit embedding always
wins, absent arrays keep the old field values, and a supplied metadata object
fully replaces the old metadata (no merging). -/
theorem C6_update_semantics (embed : String → Except String (List ℚ))
    (st : MemState) (p : UpdateParams) (hnd : p.ids.Nodup)
    (hok : (MemoryVectorStore.update embed st p).1 = .ok ()) :
    ∀ j (hj : j < p.ids.length),
      ∃ old r, rowsGet st.rows (p.ids.get ⟨j, hj⟩) = some old ∧
        rowsGet (MemoryVectorStore.update embed st p).2.rows
          (p.ids.get ⟨j, hj⟩) = some r ∧
        r.id = p.ids.get ⟨j, hj⟩ ∧
        UpdatedRow embed p.documents p.embeddings p.metadatas j old r := by
  cases hc : updateChecks st p with
  | error e =>
    rw [update_checks_error hc] at hok
    exact absurd hok (by simp)
  | ok u =>
    cases u
    have hhas := (updateChecks_ok_elim hc).2.2.2
    cases hd : dimStage st.dim p.embeddings with
    | mk res dim2 =>
      cases res with
      | error e =>
        have heq : MemoryVectorStore.update embed st p =
            (.error e, { st with dim := dim2 }) := by
          unfold MemoryVectorStore.update
          rw [hc, hd]
        rw [heq] at hok
        exact absurd hok (by simp)
      | ok u2 =>
        cases u2
        rw [update_loop_eq hc hd] at hok ⊢
        cases hl : updateLoop embed p.documents p.embeddings p.metadatas
            p.ids 0 st.rows with
        | mk res2 rows2 =>
          rw [hl] at hok
          cases res2 with
          | error e =>
            exact absurd
              (show (Except.error e : Except String Unit) = .ok () from hok)
              (by simp)
          | ok u3 =>
            cases u3
            intro j hj
            obtain ⟨old, r, h1, h2, h3, h4⟩ :=
              updateLoop_spec embed p.documents p.embeddings p.metadatas
                p.ids 0 st.rows hnd hhas hl j hj
            rw [Nat.zero_add] at h4
            exact ⟨old, r, h1, h2, h3, h4⟩

/-- Witness for C6 at the spec's own example: updating record `m` with
embedding 9 and metadata `b` yields a record whose embedding is the new one
and whose metadata is exactly the new object. -/
theorem C6_update_semantics_witness :
    ∃ old r, rowsGet stM.rows (pUpd.ids.get ⟨0, by decide⟩) = some old ∧
      rowsGet (MemoryVectorStore.update wEmbed stM pUpd).2.rows
        (pUpd.ids.get ⟨0, by decide⟩) = some r ∧
      r.id = pUpd.ids.get ⟨0, by decide⟩ ∧
      UpdatedRow wEmbed pUpd.documents pUpd.embeddings pUpd.metadatas 0 old r :=
  C6_update_semantics wEmbed stM pUpd (by decide) rfl 0 (by decide)

/-! ### Claim C5: query scoring, filtering, ranking and truncation -/

theorem mapM_ok_spec {α β : Type} {f : α → Except String β} :
    ∀ {l : List α} {bs : List β}, l.mapM f = .ok bs →
      bs.length = l.length ∧
      ∀ j (hj : j < l.length), ∃ hb : j < bs.length,
        f (l.get ⟨j, hj⟩) = .ok (bs.get ⟨j, hb⟩) := by
  intro l
  induction l with
  | nil =>
    intro bs h
    have hbs : bs = [] :=
      (Except.ok.inj (show (Except.ok [] : Except String (List β)) = .ok bs from h)).symm
    subst hbs
    exact ⟨rfl, fun j hj => absurd hj (by simp)⟩
  | cons a as ih =>
    intro bs h
    rw [List.mapM_cons] at h
    cases hfa : f a with
    | error e =>
      rw [hfa] at h
      exact absurd (show (Except.error e : Except String (List β)) = .ok bs from h)
        (by simp)
    | ok b =>
      rw [hfa] at h
      cases hm : as.mapM f with
      | error e =>
        rw [hm] at h
        exact absurd (show (Except.error e : Except String (List β)) = .ok bs from h)
          (by simp)
      | ok bs2 =>
        rw [hm] at h
        have hbs : bs = b :: bs2 :=
          (Except.ok.inj
            (show (Except.ok (b :: bs2) : Except String (List β)) = .ok bs from h)).symm
        subst hbs
        obtain ⟨hlen, hspec⟩ := ih hm
        refine ⟨by simpa using hlen, ?_⟩
        intro j hj
        cases j with
        | zero => exact ⟨by simp, by simpa using hfa⟩
        | succ j2 =>
          have hj2 : j2 < as.length := by simpa using hj
          obtain ⟨hb, hsp⟩ := hspec j2 hj2
          exact ⟨by simpa using hb, by simpa using hsp⟩

theorem scorePool_ok_elim {msqrt : ℚ → ℚ} {pred : QueryResult → Bool}
    {nR : Option Nat} {pool : List GetResult} {q : List ℚ}
    {out : List QueryResult}
    (h : scorePool msqrt pred nR pool q = .ok out) :
    ∃ scored, pool.mapM (scoreOne msqrt q) = .ok scored ∧
      out = sliceTo nR ((scored.filter pred).insertionSort simGE) := by
  unfold scorePool at h
  cases hsc : pool.mapM (scoreOne msqrt q) with
  | error e =>
    rw [hsc] at h
    exact absurd (show (Except.error e : Except String (List QueryResult)) = .ok out from h)
      (by simp)
  | ok scored =>
    rw [hsc] at h
    exact ⟨scored, rfl,
      (Except.ok.inj (show Except.ok _ = Except.ok out from h)).symm⟩

theorem buildQueries_ok_cases {embed : String → Except String (List ℚ)}
    {dim : Option Nat} {p : QueryParams} {queries : List (List ℚ)}
    {dim2 : Option Nat}
    (hex : ¬p.queryTexts.isNone = p.queryEmbeddings.isNone)
    (hq : buildQueries embed dim p = (.ok queries, dim2)) :
    p.queryEmbeddings = some queries ∨
    (∃ ts, p.queryTexts = some ts ∧ ts.mapM embed = .ok queries) := by
  unfold buildQueries at hq
  split at hq
  · next qs hqe =>
    split at hq
    · next a d2 heq =>
      obtain ⟨h1, _⟩ := (Prod.mk.injEq _ _ _ _).mp hq
      rw [hqe]
      exact Or.inl (by rw [Except.ok.inj h1])
    · next e d2 heq =>
      exact absurd ((Prod.mk.injEq _ _ _ _).mp hq).1 (by simp)
  · next hqe =>
    split at hq
    · next ts hts =>
      exact Or.inr ⟨ts, hts, ((Prod.mk.injEq _ _ _ _).mp hq).1⟩
    · next hts =>
      exact absurd (by simp [hts, hqe]) hex

/-- C5: for every successful `query` call, the query vectors are the supplied
embeddings or the provider embeddings of the supplied texts, the output has
one ranked list per query vector in input order, and each output list is
obtained from the candidate pool by pairing every candidate with its cosine
similarity to the query vector, keeping exactly those satisfying the
predicate (default: accept all), arranging them in descending order of
similarity, and truncating to the first `nResults` entries when `nResults` is
supplied (all matches are returned when it is absent). -/
theorem C5_query_ranking (msqrt : ℚ → ℚ)
    (embed : String → Except String (List ℚ)) (st : MemState) (p : QueryParams)
    (rss : List (List QueryResult)) (st2 : MemState)
    (h : MemoryVectorStore.query msqrt embed st p = (.ok rss, st2)) :
    ∃ queries : List (List ℚ),
      (p.queryEmbeddings = some queries ∨
        (∃ ts, p.queryTexts = some ts ∧ ts.mapM embed = .ok queries)) ∧
      rss.length = queries.length ∧
      ∀ j (hj : j < queries.length),
        ∃ scored : List QueryResult,
          (queryPool st p).mapM (scoreOne msqrt (queries.get ⟨j, hj⟩)) =
            .ok scored ∧
          ∃ full : List QueryResult,
            full.Perm (scored.filter (p.predicate.getD (fun _ => true))) ∧
            List.Sorted simGE full ∧
            ∃ hb : j < rss.length,
              rss.get ⟨j, hb⟩ = sliceTo p.nResults full := by
  by_cases hex : p.queryTexts.isNone = p.queryEmbeddings.isNone
  · rw [query_exclusivity_eq hex] at h
    exact absurd ((Prod.mk.injEq _ _ _ _).mp h).1 (by simp)
  · cases hf : (p.ids.getD []).find? (fun id => !(rowsHas st.rows id)) with
    | some id =>
      rw [query_idnotfound_eq hex hf] at h
      exact absurd ((Prod.mk.injEq _ _ _ _).mp h).1 (by simp)
    | none =>
      cases hq : buildQueries embed st.dim p with
      | mk res dim2 =>
        cases res with
        | error e =>
          rw [query_builderr_eq hex hf hq] at h
          exact absurd ((Prod.mk.injEq _ _ _ _).mp h).1 (by simp)
        | ok queries =>
          rw [query_ok_eq hex hf hq] at h
          cases hm : queries.mapM
              (scorePool msqrt (p.predicate.getD (fun _ => true)) p.nResults
                (queryPool st p)) with
          | error e =>
            rw [hm] at h
            exact absurd ((Prod.mk.injEq _ _ _ _).mp h).1 (by simp)
          | ok results =>
            rw [hm] at h
            have hres : results = rss :=
              Except.ok.inj ((Prod.mk.injEq _ _ _ _).mp h).1
            subst hres
            obtain ⟨hlen, hspec⟩ := mapM_ok_spec hm
            refine ⟨queries, buildQueries_ok_cases hex hq, hlen, ?_⟩
            intro j hj
            obtain ⟨hb, hsp⟩ := hspec j hj
            obtain ⟨scored, hscored, hout⟩ := scorePool_ok_elim hsp
            refine ⟨scored, hscored,
              (scored.filter (p.predicate.getD (fun _ => true))).insertionSort
                simGE,
              List.perm_insertionSort simGE _,
              List.sorted_insertionSort simGE _, hb, hout⟩

/-- Witness for C5 at a one-record store queried by a supplied embedding. -/
theorem C5_query_ranking_witness :
    ∃ queries : List (List ℚ),
      (pQEmb.queryEmbeddings = some queries ∨
        (∃ ts, pQEmb.queryTexts = some ts ∧ ts.mapM wEmbed = .ok queries)) ∧
      ([[{ toGetResult := rowA, similarity := simW }]] :
        List (List QueryResult)).length = queries.length ∧
      ∀ j (hj : j < queries.length),
        ∃ scored : List QueryResult,
          (queryPool stA pQEmb).mapM (scoreOne id (queries.get ⟨j, hj⟩)) =
            .ok scored ∧
          ∃ full : List QueryResult,
            full.Perm (scored.filter (pQEmb.predicate.getD (fun _ => true))) ∧
            List.Sorted simGE full ∧
            ∃ hb : j < ([[{ toGetResult := rowA, similarity := simW }]] :
                List (List QueryResult)).length,
              ([[{ toGetResult := rowA, similarity := simW }]] :
                List (List QueryResult)).get ⟨j, hb⟩ =
                sliceTo pQEmb.nResults full :=
  C5_query_ranking id wEmbed stA pQEmb
    [[{ toGetResult := rowA, similarity := simW }]]
    { rows := [rowA], dim := some 1 } rfl

/-- C7: for every `splitAddDocument` call whose splitter yields `chunks`:
(1) a supplied `metadataGenerator` whose output length differs from the chunk
count fails with the shape-mismatch error and leaves the store unchanged;
(2) otherwise the call is exactly one batch `add` of all chunks with one
generated id per chunk; (3) hence a successful call returns exactly
`chunks.length` generated ids in chunk order, and (when the generated ids are
distinct) every chunk is stored with its provider embedding and its generated
metadata. -/
theorem C7_splitAddDocument_shape_and_ids :
    (∀ (embed : String → Except String (List ℚ)) (gen : Nat → String)
       (splitText : String → Except String (List String)) (st : MemState)
       (document : String) (g : List String → List Meta) (chunks : List String),
      splitText document = .ok chunks →
      (g chunks).length ≠ chunks.length →
      RAG.splitAddDocument embed gen splitText st document (some g) =
        (.error (shapeMismatchMsg chunks.length (g chunks).length), st)) ∧
    (∀ (embed : String → Except String (List ℚ)) (gen : Nat → String)
       (splitText : String → Except String (List String)) (st : MemState)
       (document : String) (mg : Option (List String → List Meta))
       (chunks : List String),
      splitText document = .ok chunks →
      (∀ g, mg = some g → (g chunks).length = chunks.length) →
      RAG.splitAddDocument embed gen splitText st document mg =
        MemoryVectorStore.add embed gen st (splitAddParams gen chunks mg)) ∧
    (∀ (embed : String → Except String (List ℚ)) (gen : Nat → String)
       (splitText : String → Except String (List String)) (st : MemState)
       (document : String) (mg : Option (List String → List Meta))
       (chunks ids2 : List String) (st2 : MemState),
      splitText document = .ok chunks →
      (∀ g, mg = some g → (g chunks).length = chunks.length) →
      RAG.splitAddDocument embed gen splitText st document mg = (.ok ids2, st2) →
      ids2 = (List.range chunks.length).map gen ∧
      ids2.length = chunks.length ∧
      (((List.range chunks.length).map gen).Nodup →
        ∀ j, j < chunks.length →
          ∃ r, rowsGet st2.rows (gen j) = some r ∧ r.id = gen j ∧
            r.document = chunks.getD j "" ∧
            embed (chunks.getD j "") = .ok r.embedding ∧
            r.metadata = mg.map (fun g => (g chunks).getD j []))) := by
  have hB : ∀ (embed : String → Except String (List ℚ)) (gen : Nat → String)
      (splitText : String → Except String (List String)) (st : MemState)
      (document : String) (mg : Option (List String → List Meta))
      (chunks : List String),
      splitText document = .ok chunks →
      (∀ g, mg = some g → (g chunks).length = chunks.length) →
      RAG.splitAddDocument embed gen splitText st document mg =
        MemoryVectorStore.add embed gen st (splitAddParams gen chunks mg) := by
    intro embed gen splitText st document mg chunks hsplit hmg
    unfold RAG.splitAddDocument
    rw [hsplit]
    cases mg with
    | none => rfl
    | some g =>
      show (if (g chunks).length = chunks.length then
              MemoryVectorStore.add embed gen st
                { ids := some ((List.range chunks.length).map gen),
                  documents := chunks, embeddings := none,
                  metadatas := some (g chunks) }
            else (.error (shapeMismatchMsg chunks.length (g chunks).length), st))
          = MemoryVectorStore.add embed gen st (splitAddParams gen chunks (some g))
      rw [if_pos (hmg g rfl)]
      rfl
  refine ⟨?_, hB, ?_⟩
  · intro embed gen splitText st document g chunks hsplit hne
    unfold RAG.splitAddDocument
    rw [hsplit]
    show (if (g chunks).length = chunks.length then
            MemoryVectorStore.add embed gen st
              { ids := some ((List.range chunks.length).map gen),
                documents := chunks, embeddings := none,
                metadatas := some (g chunks) }
          else (.error (shapeMismatchMsg chunks.length (g chunks).length), st))
        = (.error (shapeMismatchMsg chunks.length (g chunks).length), st)
    rw [if_neg hne]
  · intro embed gen splitText st document mg chunks ids2 st2 hsplit hmg hrun
    have hadd : MemoryVectorStore.add embed gen st (splitAddParams gen chunks mg)
        = (.ok ids2, st2) := by
      rw [← hB embed gen splitText st document mg chunks hsplit hmg]
      exact hrun
    obtain ⟨hi, hlen, hspec⟩ := add_ok_spec hadd
    have hids : addIds gen (splitAddParams gen chunks mg)
        = (List.range chunks.length).map gen := rfl
    rw [hids] at hi hlen hspec
    refine ⟨hi, by rw [hi]; simp, ?_⟩
    intro hnd j hjc
    have hj : j < ((List.range chunks.length).map gen).length := by
      simpa using hjc
    obtain ⟨r, hr1, hr2, hr3⟩ := hspec hnd j hj
    have hgj : ((List.range chunks.length).map gen).get ⟨j, hj⟩ = gen j := by
      simp
    rw [hgj] at hr1 hr2
    have hd3 : AddedRow embed none (mg.map (fun g => g chunks)) j
        (chunks.getD j "") r := hr3
    obtain ⟨hdoc, hemb, hmeta⟩ := hd3
    have hemb2 : embed (chunks.getD j "") = .ok r.embedding := hemb
    have hmeta2 : r.metadata = mg.map (fun g => (g chunks).getD j []) := by
      rw [hmeta]
      cases mg <;> rfl
    exact ⟨r, hr1, hr2, hdoc, hemb2, hmeta2⟩

/-- The C7 theorem at concrete inputs: a two-chunk splitter with an
empty-output metadata generator hits the shape-mismatch rejection unchanged;
without a generator the run returns the two generated ids and stores both
chunks. -/
theorem C7_splitAddDocument_shape_and_ids_witness :
    (RAG.splitAddDocument wEmbed wGen wSplitC7 stEmpty "doc" (some wBadMeta) =
      (.error (shapeMismatchMsg 2 0), stEmpty)) ∧
    ["0", "1"] = (List.range 2).map wGen ∧
    (∃ r, rowsGet stC7.rows (wGen 0) = some r ∧ r.id = wGen 0 ∧
      r.document = ["alpha", "beta"].getD 0 "" ∧
      wEmbed (["alpha", "beta"].getD 0 "") = .ok r.embedding ∧
      r.metadata = (none : Option (List String → List Meta)).map
        (fun g => (g ["alpha", "beta"]).getD 0 [])) := by
  have h1 := C7_splitAddDocument_shape_and_ids.1 wEmbed wGen wSplitC7 stEmpty
    "doc" wBadMeta ["alpha", "beta"] rfl (by decide)
  have h3 := C7_splitAddDocument_shape_and_ids.2.2 wEmbed wGen wSplitC7 stEmpty
    "doc" none ["alpha", "beta"] ["0", "1"] stC7 rfl
    (fun g hg => Option.noConfusion hg) rfl
  exact ⟨h1, h3.1, h3.2.2 (by decide) 0 (by decide)⟩

/-- C8: with `augmentedGeneration` false, `generate` issues no store query and
(on nonempty input) hands the normalized messages to the model unmodified;
with it true (the default) and a usable input, the store is queried exactly
once, with one query text derived by the (defaulted) question generator and no
query embeddings, and on query success the model receives the normalized input
plus exactly one appended trailing user-role message holding the generated
prompt; the default question generator is the last message's content. -/
theorem C8_generate_augmentation :
    (∀ (msqrt : ℚ → ℚ) (embed : String → Except String (List ℚ))
       (llm : List Message → Except String String) (st : MemState)
       (p : GenerateParams),
      p.augmentedGeneration = some false →
      (RAG.generate msqrt embed llm st p).queryCalls = [] ∧
      (RAG.generate msqrt embed llm st p).finalStore = st ∧
      ((normalizeInput p.input).length ≠ 0 →
        (RAG.generate msqrt embed llm st p).llmCalls = [normalizeInput p.input] ∧
        (RAG.generate msqrt embed llm st p).result = llm (normalizeInput p.input))) ∧
    (∀ (msqrt : ℚ → ℚ) (embed : String → Except String (List ℚ))
       (llm : List Message → Except String String) (st : MemState)
       (p : GenerateParams),
      p.augmentedGeneration.getD true = true →
      (normalizeInput p.input).length ≠ 0 →
      lastMessageContent (normalizeInput p.input) ≠ "" →
      (RAG.generate msqrt embed llm st p).queryCalls = [genQueryParams p] ∧
      (genQueryParams p).queryTexts =
        some [(p.questionGenerator.getD defaultQuestionGenerator)
          (normalizeInput p.input)] ∧
      (genQueryParams p).queryEmbeddings = none ∧
      (genQueryParams p).nResults = some (p.nResults.getD 3) ∧
      (∀ rss st2,
        MemoryVectorStore.query msqrt embed st (genQueryParams p) = (.ok rss, st2) →
        (RAG.generate msqrt embed llm st p).llmCalls =
          [augmentedInput p (rss.getD 0 [])] ∧
        augmentedInput p (rss.getD 0 []) = normalizeInput p.input ++
          [{ role := .user,
             content := (p.promptGenerator.getD defaultPromptGenerator)
               (normalizeInput p.input) (rss.getD 0 []) }] ∧
        (RAG.generate msqrt embed llm st p).result =
          llm (augmentedInput p (rss.getD 0 [])))) ∧
    (∀ msgs, defaultQuestionGenerator msgs = lastMessageContent msgs) := by
  refine ⟨?_, ?_, fun _ => rfl⟩
  · intro msqrt embed llm st p haug
    unfold RAG.generate
    by_cases h0 : (normalizeInput p.input).length = 0
    · rw [if_pos h0]
      exact ⟨rfl, rfl, fun hn => absurd h0 hn⟩
    · rw [if_neg h0,
        if_pos (show p.augmentedGeneration.getD true = false by
          rw [haug]; rfl)]
      exact ⟨rfl, rfl, fun _ => ⟨rfl, rfl⟩⟩
  · intro msqrt embed llm st p haug h0 hlast
    unfold RAG.generate
    rw [if_neg h0,
      if_neg (show ¬(p.augmentedGeneration.getD true = false) by
        rw [haug]; simp),
      if_neg hlast]
    cases hq : MemoryVectorStore.query msqrt embed st (genQueryParams p) with
    | mk res st2 =>
      cases res with
      | error e =>
        refine ⟨rfl, rfl, rfl, rfl, ?_⟩
        intro rss st2b hg
        exact absurd ((Prod.mk.injEq _ _ _ _).mp hg).1 (by simp)
      | ok retrieved =>
        refine ⟨rfl, rfl, rfl, rfl, ?_⟩
        intro rss st2b hg
        rw [show rss = retrieved from
          (Except.ok.inj ((Prod.mk.injEq _ _ _ _).mp hg).1).symm]
        exact ⟨rfl, rfl, rfl⟩

/-- The C8 theorem at concrete inputs: with augmentation off the model call is
the unmodified normalized input and no query is issued; with defaults the one
store query uses the derived question text and the model receives the
augmented message list with the retrieved record. -/
theorem C8_generate_augmentation_witness :
    ((RAG.generate id wEmbed llmW stA pGenOff).queryCalls = [] ∧
     (RAG.generate id wEmbed llmW stA pGenOff).llmCalls =
       [normalizeInput pGenOff.input] ∧
     (RAG.generate id wEmbed llmW stA pGenOff).result =
       llmW (normalizeInput pGenOff.input)) ∧
    ((RAG.generate id wEmbed llmW stA pGenOn).queryCalls = [genQueryParams pGenOn] ∧
     (genQueryParams pGenOn).queryTexts = some ["q"] ∧
     (genQueryParams pGenOn).queryEmbeddings = none ∧
     (RAG.generate id wEmbed llmW stA pGenOn).llmCalls =
       [augmentedInput pGenOn [{ toGetResult := rowA, similarity := simW }]]) := by
  have h1 := C8_generate_augmentation.1 id wEmbed llmW stA pGenOff rfl
  have h2 := C8_generate_augmentation.2.1 id wEmbed llmW stA pGenOn rfl
    (by decide) (by decide)
  have hq : MemoryVectorStore.query id wEmbed stA (genQueryParams pGenOn) =
      (.ok [[{ toGetResult := rowA, similarity := simW }]], stA) := rfl
  exact ⟨⟨h1.1, (h1.2.2 (by decide)).1, (h1.2.2 (by decide)).2⟩,
         h2.1, h2.2.1, h2.2.2.1,
         (h2.2.2.2.2 [[{ toGetResult := rowA, similarity := simW }]] stA hq).1⟩

end RNRag
